import Mathlib

/-!
Verification development for the translation-key optimization engine of
`webpack-i18n-tools` (files `src/optimizer/common.js` and
`src/optimizer/webpack.js`).  JavaScript strings are embedded as `List Char`;
every regex-based transformation of the source is embedded as an executable
scanner with the same leftmost, advance-after-match semantics as
`String.prototype.replace` / `RegExp.prototype.exec`.
-/

namespace I18n

/-- JavaScript strings, embedded character by character. -/
abbrev Chars := List Char

/-- The three string delimiter characters of the character class `['"\x60]`
used throughout `common.js`. -/
def isStringDelimiter (c : Char) : Bool :=
  c == '\'' || c == '"' || c == '`'

/-- JavaScript's `\s` character class, restricted to the whitespace characters
that can occur in the generated bundles (space, tab, newline, carriage return,
vertical tab, form feed, non-breaking space, BOM, line and paragraph
separator). -/
def isJsWhitespace (c : Char) : Bool :=
  c == ' ' || c == '\t' || c == '\n' || c == '\r' || c == '\x0b' || c == '\x0c'
    || c == '\u00a0' || c == '\ufeff' || c == '\u2028' || c == '\u2029'

/-- JavaScript's `\w` character class `[A-Za-z0-9_]`. -/
def isWordChar (c : Char) : Bool :=
  ('a' ≤ c && c ≤ 'z') || ('A' ≤ c && c ≤ 'Z') || ('0' ≤ c && c ≤ '9') || c == '_'

/-! ## `normalizeString` (common.js lines 336-346)

```js
function normalizeString(str, isEvalWrapped) {
    if (isEvalWrapped) {
        str = str.replace(/\\(["\\])/g, '$1');
    }
    return str.replace(/\\n/g, '\n')
        .replace(/\\u00a0/g, '\u00a0')
        .replace(/^["'`](.*)["'`]$/gs, '$1')
        .replace(/['"`]\s*\+\s*['"`]/g, '')
        .replace(/\\(['"`])/g, '$1');
}
```
Each `.replace` is embedded as one scanner below, composed in the same
order. -/

/-- `str.replace(/\\(["\x5c])/g, '$1')`: undo one layer of eval-string
escaping of quotes and backslashes. -/
def unescapeEvalWrapped : Chars → Chars
  | '\\' :: '"' :: rest => '"' :: unescapeEvalWrapped rest
  | '\\' :: '\\' :: rest => '\\' :: unescapeEvalWrapped rest
  | c :: rest => c :: unescapeEvalWrapped rest
  | [] => []

/-- `str.replace(/\\n/g, '\n')`: unescape newlines. -/
def unescapeNewlines : Chars → Chars
  | '\\' :: 'n' :: rest => '\n' :: unescapeNewlines rest
  | c :: rest => c :: unescapeNewlines rest
  | [] => []

/-- `str.replace(/\\u00a0/g, '\u00a0')`: unescape non-breaking spaces. -/
def unescapeNbsp : Chars → Chars
  | '\\' :: 'u' :: '0' :: '0' :: 'a' :: '0' :: rest => '\u00a0' :: unescapeNbsp rest
  | c :: rest => c :: unescapeNbsp rest
  | [] => []

/-- `str.replace(/^["'\x60](.*)["'\x60]$/gs, '$1')`: remove the outer string
delimiters when the string has length at least two and both its first and its
last character are delimiters (the two delimiters need not be equal, the
regex uses a character class on both ends). -/
def stripOuterDelimiters (s : Chars) : Chars :=
  match s with
  | [] => []
  | [_] => s
  | c :: rest =>
    match rest.getLast? with
    | some d => if isStringDelimiter c && isStringDelimiter d then rest.dropLast else s
    | none => s

/-- Attempt, directly after a string delimiter, to match the remainder
`\s*\+\s*['"\x60]` of the concatenation pattern; on success return the text
after the matched span. -/
def matchConcatAfterDelimiter (rest : Chars) : Option Chars :=
  match rest.dropWhile isJsWhitespace with
  | '+' :: r2 =>
    match r2.dropWhile isJsWhitespace with
    | d :: r3 => if isStringDelimiter d then some r3 else none
    | [] => none
  | _ => none

/-- Scanner for `str.replace(/['"\x60]\s*\+\s*['"\x60]/g, '')` with explicit
fuel (one unit per scanned position); `resolveConcatenations` supplies
sufficient fuel. -/
def resolveConcatenationsAux : Nat → Chars → Chars
  | 0, s => s
  | _ + 1, [] => []
  | fuel + 1, c :: rest =>
    if isStringDelimiter c then
      match matchConcatAfterDelimiter rest with
      | some rest' => resolveConcatenationsAux fuel rest'
      | none => c :: resolveConcatenationsAux fuel rest
    else c :: resolveConcatenationsAux fuel rest

/-- `str.replace(/['"\x60]\s*\+\s*['"\x60]/g, '')`: resolve string-literal
concatenations by deleting every `delimiter + delimiter` span. -/
def resolveConcatenations (s : Chars) : Chars :=
  resolveConcatenationsAux s.length s

/-- `str.replace(/\\(['"\x60])/g, '$1')`: unescape inner string delimiter
characters. -/
def unescapeInnerDelimiters : Chars → Chars
  | '\\' :: c :: rest =>
    if isStringDelimiter c then c :: unescapeInnerDelimiters rest
    else '\\' :: unescapeInnerDelimiters (c :: rest)
  | c :: rest => c :: unescapeInnerDelimiters rest
  | [] => []

/-- `normalizeString(str, isEvalWrapped)` from common.js: the five
replacements composed in source order, preceded in eval-wrapped mode by the
extra unescaping layer. -/
def normalizeString (s : Chars) (isEvalWrapped : Bool) : Chars :=
  let s := if isEvalWrapped then unescapeEvalWrapped s else s
  unescapeInnerDelimiters (resolveConcatenations (stripOuterDelimiters
    (unescapeNbsp (unescapeNewlines s))))

/-! ## `encodeAsStringLiteral` (common.js lines 352-361)

```js
function encodeAsStringLiteral(str, isEvalWrapped) {
    str = str.replace(/\n/g, '\\n')
        .replace(/\u00a0/g, '\\u00a0')
        .replace(/(?<!\\)['"`]/g, '\\$&');
    if (isEvalWrapped) {
        str = str.replace(/["\\]/g, '\\$&');
    }
    return `'${str}'`;
}
``` -/

/-- `str.replace(/\n/g, '\\n')`: escape newlines. -/
def escapeNewlines : Chars → Chars
  | '\n' :: rest => '\\' :: 'n' :: escapeNewlines rest
  | c :: rest => c :: escapeNewlines rest
  | [] => []

/-- `str.replace(/\u00a0/g, '\\u00a0')`: escape non-breaking spaces. -/
def escapeNbsp : Chars → Chars
  | '\u00a0' :: rest => '\\' :: 'u' :: '0' :: '0' :: 'a' :: '0' :: escapeNbsp rest
  | c :: rest => c :: escapeNbsp rest
  | [] => []

/-- `str.replace(/(?<!\\)['"\x60]/g, '\\$&')`: escape every string delimiter
character whose preceding character in the scanned string is not a
backslash.  The `prev` argument carries the previously scanned character (the
lookbehind inspects the subject string, not the replacement output). -/
def escapeInnerDelimiters (prev : Option Char) : Chars → Chars
  | c :: rest =>
    if isStringDelimiter c && prev != some '\\' then
      '\\' :: c :: escapeInnerDelimiters (some c) rest
    else c :: escapeInnerDelimiters (some c) rest
  | [] => []

/-- `str.replace(/["\\]/g, '\\$&')`: the extra escaping layer applied in
eval-wrapped mode. -/
def escapeEvalWrapped : Chars → Chars
  | c :: rest =>
    if c == '"' || c == '\\' then '\\' :: c :: escapeEvalWrapped rest
    else c :: escapeEvalWrapped rest
  | [] => []

/-- `encodeAsStringLiteral(str, isEvalWrapped)` from common.js. -/
def encodeAsStringLiteral (s : Chars) (isEvalWrapped : Bool) : Chars :=
  let s := escapeInnerDelimiters none (escapeNbsp (escapeNewlines s))
  let s := if isEvalWrapped then escapeEvalWrapped s else s
  '\'' :: (s ++ ['\''])

/-- A character that is neither a string delimiter nor a backslash; newlines
and non-breaking spaces are plain. -/
def plainChar (c : Char) : Bool :=
  !isStringDelimiter c && c != '\\'

/-! ## Claim C2: the reference key index (common.js lines 77-92)

```js
const translationKeyIndexMap = {};
const fallbackTranslations = {};
Object.entries(referenceLanguageChunkInfo.translations).forEach(([key, value], index) => {
    const normalizedKey = normalizeString(key, false);
    translationKeyIndexMap[normalizedKey] = index;
    fallbackTranslations[normalizedKey] = normalizeString(value, false);
});
```
JavaScript objects with non-integer-like string keys keep insertion order and
overwrite in place, which `objInsert` mirrors on an association list. -/

/-- JavaScript object property write `m[k] = v`: overwrite in place when the
key exists, append otherwise. -/
def objInsert {A : Type} (m : List (Chars × A)) (k : Chars) (v : A) : List (Chars × A) :=
  if m.any (fun p => p.1 == k) then m.map (fun p => if p.1 == k then (k, v) else p)
  else m ++ [(k, v)]

/-- JavaScript object property read `m[k]` (`undefined` becomes `none`). -/
def objLookup {A : Type} (m : List (Chars × A)) (k : Chars) : Option A :=
  (m.find? (fun p => p.1 == k)).map (fun p => p.2)

/-- The `forEach(([key, value], index) => translationKeyIndexMap[normalizedKey] = index)`
loop; `i` is the running `forEach` index. -/
def buildTranslationKeyIndexFrom (i : Nat) :
    List (Chars × Chars) → List (Chars × Nat) → List (Chars × Nat)
  | [], m => m
  | kv :: rest, m =>
    buildTranslationKeyIndexFrom (i + 1) rest (objInsert m (normalizeString kv.1 false) i)

/-- `translationKeyIndexMap` built from the reference dictionary entries (in
`Object.entries` order). -/
def buildTranslationKeyIndex (entries : List (Chars × Chars)) : List (Chars × Nat) :=
  buildTranslationKeyIndexFrom 0 entries []

/-- `fallbackTranslations` built from the reference dictionary entries. -/
def buildFallbackTranslations (entries : List (Chars × Chars)) : List (Chars × Chars) :=
  entries.foldl
    (fun m kv => objInsert m (normalizeString kv.1 false) (normalizeString kv.2 false)) []

/-- The property claimed of the index: the keys are listed in first-appearance
order and the associated ordinals are exactly `0, 1, ..., N-1` in that order,
i.e. the map is a bijection from its `N` distinct keys onto the ordinals below
`N`, assigned in order of first appearance. -/
def indexIsFirstAppearanceBijection (m : List (Chars × Nat)) : Prop :=
  m.map Prod.snd = List.range m.length

/-- A reference dictionary whose two distinct raw keys `a` and `'a'` share the
normalized form `a`. -/
def collidingReferenceEntries : List (Chars × Chars) :=
  [("a".data, "x".data), ('\'' :: 'a' :: '\'' :: [], "y".data)]

/-! ## Claims C4, C5: `optimizeTranslationUsages` (common.js lines 183-224)

```js
while ((match = translationUsageRegex.exec(originalCode)) !== null) {
    const [, matchedPrefix, matchedTranslationKey] = match;
    const translationKeyPosition = match.index + matchedPrefix.length;
    const normalizedTranslationKey = normalizeString(matchedTranslationKey, isEvalWrapped);
    const translationKeyIndex = translationKeyIndexMap[normalizedTranslationKey];
    if (translationKeyIndex === undefined) {
        missingTranslations.add(normalizedTranslationKey);
        continue;
    }
    usedTranslations.add(normalizedTranslationKey);
    source.replace(translationKeyPosition, translationKeyPosition + matchedTranslationKey.length - 1,
        `'${translationKeyIndex}'`);
}
```
The regex matches are embedded as a list of `UsageSite` values in match
order; the loop body is transcribed verbatim. -/

/-- One match of the translation-usage regex: `position` is `match.index`,
`prefixText` the matched prefix (capture group 1) and `keyText` the matched,
possibly `+`-concatenated, translation key (capture group 2). -/
structure UsageSite where
  position : Nat
  prefixText : Chars
  keyText : Chars
deriving DecidableEq

/-- One `ReplaceSource.replace(start, stop, replacement)` edit with inclusive
positions relative to the original, unmodified text. -/
structure Edit where
  start : Nat
  stop : Nat
  replacement : Chars
deriving DecidableEq

/-- JavaScript `Set.prototype.add`: append the element unless present. -/
def setAdd (s : List Chars) (k : Chars) : List Chars :=
  if s.any (fun x => x == k) then s else s ++ [k]

/-- Start (inclusive) of the key span of a usage site:
`match.index + matchedPrefix.length`. -/
def UsageSite.keyStart (site : UsageSite) : Nat :=
  site.position + site.prefixText.length

/-- End (inclusive) of the key span of a usage site. -/
def UsageSite.keyStop (site : UsageSite) : Nat :=
  site.keyStart + site.keyText.length - 1

/-- The loop of `optimizeTranslationUsages`, processing the regex matches in
order while accumulating the `ReplaceSource` edits and the
`missingTranslations` / `usedTranslations` sets. -/
def optimizeTranslationUsagesGo (indexMap : List (Chars × Nat)) (isEvalWrapped : Bool) :
    List UsageSite → List Edit → List Chars → List Chars
    → List Edit × List Chars × List Chars
  | [], edits, missing, used => (edits, missing, used)
  | site :: rest, edits, missing, used =>
    let normalizedTranslationKey := normalizeString site.keyText isEvalWrapped
    match objLookup indexMap normalizedTranslationKey with
    | none =>
      optimizeTranslationUsagesGo indexMap isEvalWrapped rest edits
        (setAdd missing normalizedTranslationKey) used
    | some translationKeyIndex =>
      optimizeTranslationUsagesGo indexMap isEvalWrapped rest
        (edits ++ [⟨site.keyStart, site.keyStop,
          '\'' :: (Nat.toDigits 10 translationKeyIndex ++ ['\''])⟩])
        missing (setAdd used normalizedTranslationKey)

/-- `optimizeTranslationUsages(chunkInfo, translationKeyIndexMap)`: the edits
applied to the chunk source together with the `missingTranslations` and
`usedTranslations` sets. -/
def optimizeTranslationUsages (indexMap : List (Chars × Nat)) (isEvalWrapped : Bool)
    (sites : List UsageSite) : List Edit × List Chars × List Chars :=
  optimizeTranslationUsagesGo indexMap isEvalWrapped sites [] [] []

/-- Index, sites and the absent site used in the C4 and C5 witnesses and
counterexample. -/
def c4ExampleIndexMap : List (Chars × Nat) := [("a".data, 0)]

def c4ExamplePresentSite : UsageSite := ⟨0, "$t(".data, ('\'' :: 'a' :: '\'' :: [])⟩

def c4ExampleAbsentSite : UsageSite := ⟨20, "$t(".data, ('\'' :: 'b' :: '\'' :: [])⟩

def c4ExampleSites : List UsageSite := [c4ExamplePresentSite, c4ExampleAbsentSite]

/-! ## Claim C5: concatenated usage keys -/

/-- Body of a `+`-concatenation of single-quoted literal segments, without
the outermost quotes: `concatBody a [b, c]` is `a' + 'b' + 'c`. -/
def concatBody (first : Chars) : List Chars → Chars
  | [] => first
  | t :: rest => first ++ ('\'' :: ' ' :: '+' :: ' ' :: '\'' :: concatBody t rest)

/-- A `+`-concatenation of single-quoted literal segments as matched by the
usage regex: `renderConcat a [b]` is the text `'a' + 'b'`. -/
def renderConcat (first : Chars) (rest : List Chars) : Chars :=
  '\'' :: (concatBody first rest ++ ['\''])

/-! ## Claim C6: reference-language selection (common.js lines 83-85)

```js
const referenceLanguageChunkInfo = languageChunkInfos
    .find(({ filename }) => /\ben[-.]/.test(path.basename(filename)));
```
-/

/-- `path.basename` for the POSIX separator: the part after the last `/`. -/
def basename (s : Chars) : Chars :=
  (s.reverse.takeWhile (fun c => c != '/')).reverse

/-- Scanner for `/\ben[-.]/`: an occurrence of `en`, its `e` at a word
boundary (`prev` is the character before the scanned position), followed by a
hyphen or a dot. -/
def matchesEnFollowedBySeparator : Option Char → Chars → Bool
  | prev, 'e' :: 'n' :: c :: rest =>
    ((match prev with
      | none => true
      | some p => !isWordChar p)
      && (c == '-' || c == '.'))
      || matchesEnFollowedBySeparator (some 'e') ('n' :: c :: rest)
  | _, c :: rest => matchesEnFollowedBySeparator (some c) rest
  | _, [] => false

/-- `/\ben[-.]/.test(path.basename(filename))` from common.js. -/
def testReferenceLanguageFilename (filename : Chars) : Bool :=
  matchesEnFollowedBySeparator none (basename filename)

/-- `languageChunkInfos.find(...)` projected onto filenames: the first
language chunk whose basename passes the reference-language test. -/
def findReferenceFilename (filenames : List Chars) : Option Chars :=
  filenames.find? (fun f => testReferenceLanguageFilename f)

/-- The reference-selection rule as worded by the claim: the filename
contains the token `en` immediately PRECEDED by a hyphen or a dot. -/
def containsEnPrecededBySeparator : Chars → Bool
  | '-' :: 'e' :: 'n' :: _ => true
  | '.' :: 'e' :: 'n' :: _ => true
  | _ :: rest => containsEnPrecededBySeparator rest
  | [] => false

/-! ## Claim C7: asset classification (webpack.js lines 213-220)

```js
for (const [filename, source] of Object.entries(chunks)) {
    if (!filename.endsWith('.js') || filename.includes('chunk-vendors')) continue;
    if (languageFilePattern.test(filename)) {  // -po(?:-legacy)?(?:\.[^.]*)?\.js$
        languageChunkInfos.push({ filename, source, isEvalWrapped });
    } else {
        otherChunkInfos.push({ filename, source, isEvalWrapped });
    }
}
```
-/

/-- Substring containment (`String.prototype.includes`). -/
def containsSub (pat : Chars) : Chars → Bool
  | [] => List.isPrefixOf pat []
  | s@(_ :: rest) => List.isPrefixOf pat s || containsSub pat rest

/-- `filename.includes('chunk-vendors')`. -/
def includesChunkVendors (s : Chars) : Bool :=
  containsSub "chunk-vendors".data s

/-- `filename.endsWith('.js')`. -/
def endsWithDotJs (s : Chars) : Bool :=
  List.isSuffixOf ('.' :: 'j' :: 's' :: []) s

/-- Tail of the language-filename regex after the optional `.hash` dot:
`[^.]*\.js$`. -/
def matchHashThenDotJs (l : Chars) : Bool :=
  (l.dropWhile (fun c => c != '.')) == ('.' :: 'j' :: 's' :: [])

/-- Tail of the language-filename regex after `-po` or `-po-legacy`:
`(?:\.[^.]*)?\.js$`. -/
def matchAfterPo (l : Chars) : Bool :=
  l == ('.' :: 'j' :: 's' :: [])
    || (match l with
        | '.' :: r => matchHashThenDotJs r
        | _ => false)

/-- Attempt to match `-po(?:-legacy)?(?:\.[^.]*)?\.js$` starting exactly at
the head of `l`. -/
def matchPoTail (l : Chars) : Bool :=
  match l with
  | '-' :: 'p' :: 'o' :: r =>
    matchAfterPo r
      || (match r with
          | '-' :: 'l' :: 'e' :: 'g' :: 'a' :: 'c' :: 'y' :: r2 => matchAfterPo r2
          | _ => false)
  | _ => false

/-- The test of the (case-sensitive) anchored
language-filename pattern `-po(?:-legacy)?(?:\.[^.]*)?\.js$`, tried at every
start position. -/
def matchesLanguageFilePattern : Chars → Bool
  | [] => false
  | l@(_ :: rest) => matchPoTail l || matchesLanguageFilePattern rest

/-- The asset-categorization loop of `processAssets`, projected onto
filenames: assets not ending in `.js` or containing `chunk-vendors` are
skipped entirely; the rest are split by the language-filename pattern. -/
def categorizeAssets (filenames : List Chars) : List Chars × List Chars :=
  filenames.foldr
    (fun f acc =>
      if !endsWithDotJs f || includesChunkVendors f then acc
      else if matchesLanguageFilePattern f then (f :: acc.1, acc.2)
      else (acc.1, f :: acc.2))
    ([], [])

/-- The classifier as worded by the claim: ends in `.js` and matches the
pattern case-insensitively. -/
def claimedIsLanguageArtifact (f : Chars) : Bool :=
  endsWithDotJs f && matchesLanguageFilePattern (f.map Char.toLower)

/-! ## Claims C3, C9: `optimizeLanguageChunk` (common.js lines 116-176)

```js
while ((match = translationEntryRegex.exec(translationsCode)) !== null) {
    const [, matchedTranslationKey, matchedDoubleColon, matchedTranslation] = match;
    const translationKey = normalizeString(matchedTranslationKey, isEvalWrapped);
    const translationKeyIndex = translationKeyIndexMap[translationKey];
    if (translationKeyIndex === undefined) continue;
    missingTranslations.delete(translationKey);
    source.replace(..., translationKeyIndex.toString());
    if (matchedTranslation.length === 2) {
        const fallbackTranslation = fallbackTranslations[translationKey] || translationKey;
        source.replace(..., encodeAsStringLiteral(fallbackTranslation, isEvalWrapped));
    }
}
const insertionPosition = translationsCodePosition + translationsCode.length - 1;
let hasTrailingComma = /,\s*};?$/.test(translationsCode);
for (const missingTranslationKey of missingTranslations) {
    const translationKeyIndex = translationKeyIndexMap[missingTranslationKey];
    const fallbackTranslation = fallbackTranslations[missingTranslationKey] || missingTranslationKey;
    source.insert(insertionPosition,
        `$\x7bhasTrailingComma ? '' : ','}$\x7btranslationKeyIndex}:$\x7bencodeAsStringLiteral(...)}`);
    hasTrailingComma = false;
}
```
The regex matches over `translationsCode` are embedded as a list of
`TranslationEntry` values in match order; the loop bodies are transcribed
below. -/

/-- One match of the translation-entry regex: the three capture groups
(translation key, the colon with surrounding whitespace, the delimited
translation text). -/
structure TranslationEntry where
  keyText : Chars
  colonText : Chars
  valueText : Chars
deriving DecidableEq

/-- `translationKeyIndex.toString()`: decimal digits. -/
def toDigitsChars (n : Nat) : Chars :=
  Nat.toDigits 10 n

/-- `fallbackTranslations[translationKey] || translationKey`: the JS `||`
falls through to the key both when the fallback is `undefined` and when it is
the (falsy) empty string. -/
def fallbackOrKey (fallbackTranslations : List (Chars × Chars)) (translationKey : Chars) :
    Chars :=
  match objLookup fallbackTranslations translationKey with
  | some f => if f.isEmpty then translationKey else f
  | none => translationKey

/-- Body of the entry-regex loop for one matched entry: replace the key span
by the decimal ordinal and, when the matched translation has length exactly
two, replace the value span by the encoded fallback. -/
def rewriteLanguageEntry (indexMap : List (Chars × Nat))
    (fallbackTranslations : List (Chars × Chars)) (isEvalWrapped : Bool)
    (e : TranslationEntry) : TranslationEntry :=
  let translationKey := normalizeString e.keyText isEvalWrapped
  match objLookup indexMap translationKey with
  | none => e
  | some translationKeyIndex =>
    let e2 := { e with keyText := toDigitsChars translationKeyIndex }
    if e.valueText.length = 2 then
      let fb := fallbackOrKey fallbackTranslations translationKey
      { e2 with valueText := encodeAsStringLiteral fb isEvalWrapped }
    else e2

/-- The `missingTranslations` set after the scan loop: the index keys, in map
order, from which every normalized key matched in this artifact has been
deleted. -/
def missingTranslationKeys (indexMap : List (Chars × Nat)) (isEvalWrapped : Bool)
    (entries : List TranslationEntry) : List Chars :=
  (indexMap.map Prod.fst).filter
    (fun k => !(entries.any (fun e => normalizeString e.keyText isEvalWrapped == k)))

/-- The synthesized `(ordinal, fallback)` pairs for the missing keys, in set
order.  The index lookup is `guaranteed to exist` (source comment) because
the missing keys are drawn from the index itself. -/
def synthesizedFallbackEntries (indexMap : List (Chars × Nat))
    (fallbackTranslations : List (Chars × Chars)) (missing : List Chars) :
    List (Nat × Chars) :=
  missing.filterMap (fun k =>
    match objLookup indexMap k with
    | none => none
    | some translationKeyIndex => some (translationKeyIndex, fallbackOrKey fallbackTranslations k))

/-- The text inserted immediately before the dictionary's closing brace: one
`ordinal:'fallback'` item per missing key, a separator comma before the first
one only when the dictionary has no trailing comma, and a comma before every
later one (`hasTrailingComma = false` after the first iteration). -/
def synthesizedInsertText (isEvalWrapped : Bool) :
    List (Nat × Chars) → Bool → Chars
  | [], _ => []
  | (idx, fb) :: rest, hasTrailingComma =>
    ((if hasTrailingComma then [] else [','])
        ++ (toDigitsChars idx ++ ':' :: encodeAsStringLiteral fb isEvalWrapped))
      ++ synthesizedInsertText isEvalWrapped rest false

/-- `/,\s*};?$/.test(translationsCode)`: does a comma (up to whitespace)
already precede the dictionary's closing brace? -/
def hasTrailingCommaBeforeBrace (s : Chars) : Bool :=
  let r := s.reverse
  let r := match r with
    | ';' :: r2 => r2
    | _ => r
  match r with
  | '\x7d' :: r2 =>
    match r2.dropWhile isJsWhitespace with
    | ',' :: _ => true
    | _ => false
  | _ => false

/-- Rendering of one dictionary entry. -/
def TranslationEntry.render (e : TranslationEntry) : Chars :=
  e.keyText ++ e.colonText ++ e.valueText

/-- The dictionary text produced for a language artifact: the rewritten
entries with their original separators, then the synthesized fallback text
inserted at `insertionPosition` (immediately before the closing brace). -/
def optimizedDictionaryCode (indexMap : List (Chars × Nat))
    (fallbackTranslations : List (Chars × Chars)) (isEvalWrapped : Bool)
    (entries : List TranslationEntry) (hasTrailingComma : Bool) : Chars :=
  '\x7b' :: (List.intercalate [','] ((entries.map
      (rewriteLanguageEntry indexMap fallbackTranslations isEvalWrapped)).map
        TranslationEntry.render)
    ++ (if hasTrailingComma then [','] else [])
    ++ synthesizedInsertText isEvalWrapped
        (synthesizedFallbackEntries indexMap fallbackTranslations
          (missingTranslationKeys indexMap isEvalWrapped entries))
        hasTrailingComma
    ++ ['\x7d'])

/-- The ordinals written over matched entry keys, in match order. -/
def rewrittenOrdinals (indexMap : List (Chars × Nat)) (isEvalWrapped : Bool)
    (entries : List TranslationEntry) : List Nat :=
  entries.filterMap (fun e => objLookup indexMap (normalizeString e.keyText isEvalWrapped))

/-- The ordinals of the synthesized fallback entries. -/
def synthesizedOrdinals (indexMap : List (Chars × Nat))
    (fallbackTranslations : List (Chars × Chars)) (isEvalWrapped : Bool)
    (entries : List TranslationEntry) : List Nat :=
  (synthesizedFallbackEntries indexMap fallbackTranslations
    (missingTranslationKeys indexMap isEvalWrapped entries)).map Prod.fst

/-- Items separated by single commas. -/
def joinWithCommas : List Chars → Chars
  | [] => []
  | [x] => x
  | x :: rest => x ++ ',' :: joinWithCommas rest

/-- The text of one synthesized entry: `ordinal:'fallback'`. -/
def synthesizedItem (isEvalWrapped : Bool) (p : Nat × Chars) : Chars :=
  toDigitsChars p.1 ++ ':' :: encodeAsStringLiteral p.2 isEvalWrapped

/-- Reference dictionary of the C3 witness. -/
def c3RefEntries : List (Chars × Chars) :=
  [("hello".data, "Hello".data), ("bye".data, "Bye".data)]

/-- Artifact entries of the C3 witness: the `bye` key is missing. -/
def c3ArtifactEntries : List TranslationEntry :=
  [⟨"hello".data, (':' : Char) :: [], "'Hola'".data⟩]

/-- Reference dictionary of the C3 counterexample: keys `a` and `b`. -/
def c3CollidingRef : List (Chars × Chars) :=
  [("a".data, "x".data), ("b".data, "y".data)]

/-- Artifact entries of the C3 counterexample: the keys `a` and `'a'` both
normalize to `a`, and the reference key `b` is missing. -/
def c3CollidingEntries : List TranslationEntry :=
  [⟨"a".data, (':' : Char) :: [], "'x'".data⟩,
    ⟨"'a'".data, (':' : Char) :: [], "'y'".data⟩]

/-! ## Claims C10, C8: `parseLanguageChunk` and `processChunks`
(common.js lines 25-70)

```js
function parseLanguageChunk(languageChunk) {
    const chunkCode = languageChunk.source.source();
    if (typeof chunkCode !== 'string') throw new Error('Failed to parse language file.');
    const isEvalWrapped = !!languageChunk.isEvalWrapped;
    const translationObjectRegex = generateTranslationObjectRegex(isEvalWrapped);
    const match = chunkCode.match(translationObjectRegex);
    if (!match) throw new Error('Failed to parse language file.');
    const translationsCode = match[0];
    const translationsCodePosition = match.index;
    const translationObjectRegexNonWrapped = isEvalWrapped
        ? generateTranslationObjectRegex(false)
        : translationObjectRegex;
    const translations = JSON5.parse(languageChunk.moduleCode.match(translationObjectRegexNonWrapped)?.[0] || 'null');
    if (!translationsCodePosition || !translations) throw new Error('Failed to parse language file.');
    return { ...languageChunk, isEvalWrapped, translations, translationsCode, translationsCodePosition };
}
```

The translation-object regex (`generateTranslationObjectRegex`) is embedded
as a recursive-descent matcher over the same grammar: an opening brace,
whitespace (in eval-wrapped mode, whitespace also as two-character escape
sequences), comma-separated `KEY ws : ws STRING` entries with an optional
trailing comma, and a closing brace; string literals and their eval-wrapped
escaping follow `matchString`.  `JSON5.parse` of the matched object text is
modelled by decoding the matched entries' string literals (standard escape
sequences; an object text whose bare keys are not valid JSON5 identifiers
would make the real `JSON5.parse` throw a different error, which this model
does not reproduce). -/

/-- `matchWhitespace(isEvalWrapped)` as a greedy scanner: `\s*`, and in
eval-wrapped mode also literal escape sequences `\n`, `\r`, `\t`, `\v`,
`\f`. -/
def skipWsChars (w : Bool) : Nat → Chars → Chars
  | 0, s => s
  | _ + 1, [] => []
  | fuel + 1, c :: rest =>
    if isJsWhitespace c then skipWsChars w fuel rest
    else if w then
      match c, rest with
      | '\\', d :: rest2 =>
        if d == 'n' || d == 'r' || d == 't' || d == 'v' || d == 'f'
          then skipWsChars w fuel rest2
          else c :: rest
      | _, _ => c :: rest
    else c :: rest

/-- Body scan for a direct-mode or eval-wrapped single-character-delimited
string literal (lazy close at the first unescaped delimiter; the escape unit
is `\d` directly and `\\d` when eval-wrapped). -/
def scanStringBody (w : Bool) (d : Char) : Nat → Chars → Option Chars
  | 0, _ => none
  | _ + 1, [] => none
  | fuel + 1, c :: rest =>
    if c == d then some rest
    else if w then
      match c, rest with
      | '\\', '\\' :: e :: rest2 =>
        if e == d then scanStringBody w d fuel rest2
        else scanStringBody w d fuel (('\\' : Char) :: e :: rest2)
      | _, _ => scanStringBody w d fuel rest
    else
      match c, rest with
      | '\\', e :: rest2 =>
        if e == d then scanStringBody w d fuel rest2
        else scanStringBody w d fuel (e :: rest2)
      | _, _ => scanStringBody w d fuel rest

/-- Body scan for an eval-wrapped double-quoted literal: the delimiter is the
two-character sequence `\"`, the escape unit `\\\"`, and a bare `"` cannot
occur. -/
def scanWrappedDoubleBody : Nat → Chars → Option Chars
  | 0, _ => none
  | _ + 1, [] => none
  | fuel + 1, s =>
    match s with
    | '\\' :: '"' :: rest => some rest
    | '\\' :: '\\' :: '\\' :: '"' :: rest => scanWrappedDoubleBody fuel rest
    | c :: rest => if c == '"' then none else scanWrappedDoubleBody fuel rest
    | [] => none

/-- Match one string literal (`matchString(null, isEvalWrapped)`) starting at
the head; returns the text after the literal. -/
def matchStringLitRest (w : Bool) (s : Chars) : Option Chars :=
  match s with
  | '\'' :: rest => scanStringBody w '\'' rest.length rest
  | '`' :: rest => scanStringBody w '`' rest.length rest
  | '"' :: rest => if w then none else scanStringBody false '"' rest.length rest
  | '\\' :: '"' :: rest => if w then scanWrappedDoubleBody rest.length rest else none
  | _ => none

/-- The character class of a bare translation key. -/
def isBareKeyChar (c : Char) : Bool :=
  !(c == '\x7b' || c == ',' || isJsWhitespace c || c == '"' || c == '\'' || c == '`'
    || c == ':')

/-- Match one `KEY ws : ws STRING` entry of the translation-entry grammar
starting at the head; returns the three captured texts and the rest. -/
def matchEntryAt (w : Bool) (s : Chars) : Option (TranslationEntry × Chars) :=
  let tryWithKeyRest := fun (keyRest : Chars) =>
    let afterWs1 := skipWsChars w keyRest.length keyRest
    match afterWs1 with
    | ':' :: afterColon =>
      let afterWs2 := skipWsChars w afterColon.length afterColon
      match matchStringLitRest w afterWs2 with
      | some rest =>
        some (⟨s.take (s.length - keyRest.length),
          keyRest.take (keyRest.length - afterWs2.length),
          afterWs2.take (afterWs2.length - rest.length)⟩, rest)
      | none => none
    | _ => none
  let bareRun := s.takeWhile isBareKeyChar
  match (if bareRun.isEmpty then none else tryWithKeyRest (s.drop bareRun.length)) with
  | some res => some res
  | none =>
    match matchStringLitRest w s with
    | some keyRest => tryWithKeyRest keyRest
    | none => none

/-- The comma-separated entry list of the translation-object grammar. -/
def matchEntriesLoop (w : Bool) : Nat → Chars → List TranslationEntry
    → List TranslationEntry × Chars
  | 0, s, acc => (acc.reverse, s)
  | fuel + 1, s, acc =>
    match matchEntryAt w s with
    | none => (acc.reverse, s)
    | some (e, r1) =>
      let r2 := skipWsChars w r1.length r1
      match r2 with
      | ',' :: r3 =>
        matchEntriesLoop w fuel (skipWsChars w r3.length r3) (e :: acc)
      | _ => ((e :: acc).reverse, r2)

/-- Attempt to match the whole translation-object pattern starting exactly at
the head; returns the matched entries and the rest after the object. -/
def tryMatchObjectAt (w : Bool) (s : Chars) : Option (List TranslationEntry × Chars) :=
  match s with
  | '\x7b' :: r0 =>
    let r1 := skipWsChars w r0.length r0
    let (entries, r2) := matchEntriesLoop w r1.length r1 []
    let r3 := skipWsChars w r2.length r2
    match r3 with
    | '\x7d' :: rest => some (entries, rest)
    | _ => none
  | _ => none

/-- `chunkCode.match(translationObjectRegex)`: the leftmost match of the
translation-object pattern, as its start index, parsed entries and matched
text. -/
def findTranslationObjectFrom (w : Bool) (pos : Nat) :
    Chars → Option (Nat × List TranslationEntry × Chars)
  | [] => none
  | s@(_ :: tail) =>
    match tryMatchObjectAt w s with
    | some (entries, rest) => some (pos, entries, s.take (s.length - rest.length))
    | none => findTranslationObjectFrom w (pos + 1) tail

def findTranslationObject (w : Bool) (code : Chars) :
    Option (Nat × List TranslationEntry × Chars) :=
  findTranslationObjectFrom w 0 code

/-- JSON5 string unescaping (the escape sequences occurring in generated
language files: ` `, `\n`, and single-character escapes). -/
def decodeJson5Escapes : Chars → Chars
  | '\\' :: 'u' :: '0' :: '0' :: 'a' :: '0' :: rest => '\u00a0' :: decodeJson5Escapes rest
  | '\\' :: 'n' :: rest => '\n' :: decodeJson5Escapes rest
  | '\\' :: c :: rest => c :: decodeJson5Escapes rest
  | c :: rest => c :: decodeJson5Escapes rest
  | [] => []

/-- JSON5 decoding of a matched key or value text: quoted literals lose their
delimiters and escapes, bare keys are their own value. -/
def decodeJson5StringLit (s : Chars) : Chars :=
  match s with
  | c :: rest =>
    if isStringDelimiter c then decodeJson5Escapes rest.dropLast else c :: rest
  | [] => []

/-- `JSON5.parse` of a matched translation-object text, as decoded key/value
pairs. -/
def translationsOfEntries (entries : List TranslationEntry) : List (Chars × Chars) :=
  entries.map (fun e => (decodeJson5StringLit e.keyText, decodeJson5StringLit e.valueText))

/-- The parsed form of a language chunk
(`ParsedLanguageChunkInfo` in common.js). -/
structure ParsedLanguageChunkInfo where
  filename : Chars
  translations : List (Chars × Chars)
  translationsCode : Chars
  translationsCodePosition : Nat
  isEvalWrapped : Bool
deriving DecidableEq

/-- A language chunk as handed to `processChunks` by the build-tool plugin:
its filename, chunk code, module code and eval-wrapping flag. -/
structure LanguageChunkInput where
  filename : Chars
  chunkCode : Chars
  moduleCode : Chars
  isEvalWrapped : Bool
deriving DecidableEq

/-- `parseLanguageChunk(languageChunk)`: match the translation object in the
chunk code, parse the translations from the (non-wrapped) module code, and
reject the result when the object regex matched at position zero
(`!translationsCodePosition`) or no translations were parsed
(`!translations`, i.e. `JSON5.parse('null')`). -/
def parseLanguageChunk (c : LanguageChunkInput) : Except String ParsedLanguageChunkInfo :=
  match findTranslationObject c.isEvalWrapped c.chunkCode with
  | none => Except.error "Failed to parse language file."
  | some (translationsCodePosition, _, translationsCode) =>
    match findTranslationObject false c.moduleCode with
    | none => Except.error "Failed to parse language file."
    | some (_, moduleEntries, _) =>
      if translationsCodePosition = 0 then Except.error "Failed to parse language file."
      else Except.ok ⟨c.filename, translationsOfEntries moduleEntries, translationsCode,
        translationsCodePosition, c.isEvalWrapped⟩

/-- A non-language chunk as seen by `optimizeTranslationUsages`: its filename
and the usage-regex matches of its code. -/
structure OtherChunkInput where
  filename : Chars
  sites : List UsageSite
  isEvalWrapped : Bool
deriving DecidableEq

/-- The outcome of one optimization pass: the rewritten dictionary text per
language chunk, the usage edits per other chunk, and the diagnostics sets. -/
structure ProcessedChunks where
  languageUpdates : List (Chars × Chars)
  otherUpdates : List (Chars × List Edit)
  missingTranslations : List Chars
  unusedTranslations : List Chars
deriving DecidableEq

/-- `languageChunkInfos.map(parseLanguageChunk)`: the first parse failure
aborts the pass. -/
def parseAllLanguageChunks :
    List LanguageChunkInput → Except String (List ParsedLanguageChunkInfo)
  | [] => Except.ok []
  | c :: rest =>
    match parseLanguageChunk c with
    | Except.error e => Except.error e
    | Except.ok p =>
      match parseAllLanguageChunks rest with
      | Except.error e => Except.error e
      | Except.ok ps => Except.ok (p :: ps)

/-- The entry-regex scan of `optimizeLanguageChunk` over the matched
dictionary text. -/
def entriesOfTranslationsCode (w : Bool) (text : Chars) : List TranslationEntry :=
  match tryMatchObjectAt w text with
  | some (es, _) => es
  | none => []

/-- The body of `optimizeChunks` after the reference chunk has been found:
build the index and fallback table from the reference translations, rewrite
every language chunk, rewrite the usages of every other chunk, and aggregate
the `missingTranslations` / `unusedTranslations` sets. -/
def optimizeChunksCore (parsed : List ParsedLanguageChunkInfo)
    (others : List OtherChunkInput) (ref : ParsedLanguageChunkInfo) : ProcessedChunks :=
  let indexMap := buildTranslationKeyIndex ref.translations
  let fallbacks := buildFallbackTranslations ref.translations
  let languageUpdates := parsed.map (fun p =>
    (p.filename,
      optimizedDictionaryCode indexMap fallbacks p.isEvalWrapped
        (entriesOfTranslationsCode p.isEvalWrapped p.translationsCode)
        (hasTrailingCommaBeforeBrace p.translationsCode)))
  let otherResults := others.map (fun o =>
    (o.filename, optimizeTranslationUsages indexMap o.isEvalWrapped o.sites))
  let missingTranslations := otherResults.foldl
    (fun acc r => r.2.2.1.foldl setAdd acc) []
  let usedTranslations := otherResults.foldl
    (fun acc r => r.2.2.2.foldl setAdd acc) []
  let unusedTranslations := (indexMap.map Prod.fst).filter
    (fun k => !(usedTranslations.any (fun x => x == k)))
  ⟨languageUpdates, otherResults.map (fun r => (r.1, r.2.1)),
    missingTranslations, unusedTranslations⟩

/-- `optimizeChunks`: find the reference chunk (throwing
`English reference language file not found.` when absent) and run the
optimization. -/
def optimizeChunksE (parsed : List ParsedLanguageChunkInfo)
    (others : List OtherChunkInput) : Except String ProcessedChunks :=
  match parsed.find? (fun p => testReferenceLanguageFilename p.filename) with
  | none => Except.error "English reference language file not found."
  | some ref => Except.ok (optimizeChunksCore parsed others ref)

/-- `processChunks(languageChunkInfos, otherChunkInfos, updateChunk, emitWarning)`:
an immediate no-op for zero language chunks, otherwise parse all language
chunks and optimize.  An `Except.error` outcome models the thrown exception,
before any `updateChunk` call: no artifact is modified. -/
def processChunks (languageChunkInfos : List LanguageChunkInput)
    (otherChunkInfos : List OtherChunkInput) : Except String ProcessedChunks :=
  if languageChunkInfos.isEmpty then Except.ok ⟨[], [], [], []⟩
  else
    match parseAllLanguageChunks languageChunkInfos with
    | Except.error e => Except.error e
    | Except.ok parsed => optimizeChunksE parsed otherChunkInfos

/-- The language chunk of the C8 and C10 witnesses that is not the reference
language. -/
def c8GermanChunk : LanguageChunkInput :=
  ⟨"de-po.js".data, "v=".data ++ '\x7b' :: "a:'x'".data ++ ['\x7d'],
    '\x7b' :: "a:'x'".data ++ ['\x7d'], false⟩

/-- The parse result of `c8GermanChunk`. -/
def c8GermanParsed : ParsedLanguageChunkInfo :=
  ⟨"de-po.js".data, [("a".data, "x".data)], '\x7b' :: "a:'x'".data ++ ['\x7d'], 2, false⟩

/-- The chunk of the C10 witness: its code IS the dictionary text, so the
pattern matches at offset zero. -/
def c10ZeroChunk : LanguageChunkInput :=
  ⟨"en-po.js".data, '\x7b' :: "a:'x'".data ++ ['\x7d'],
    '\x7b' :: "a:'x'".data ++ ['\x7d'], false⟩

/-! ## Theorems -/

/-! ### Stepping lemmas for the scanners -/

theorem unescapeNewlines_cons_ne (c : Char) (x : Chars) (h : c ≠ '\\') :
    unescapeNewlines (c :: x) = c :: unescapeNewlines x := by
  rw [unescapeNewlines.eq_def]
  split <;> simp_all

theorem unescapeNbsp_cons_ne (c : Char) (x : Chars) (h : c ≠ '\\') :
    unescapeNbsp (c :: x) = c :: unescapeNbsp x := by
  rw [unescapeNbsp.eq_def]
  split <;> simp_all

theorem unescapeEvalWrapped_cons_ne (c : Char) (x : Chars) (h : c ≠ '\\') :
    unescapeEvalWrapped (c :: x) = c :: unescapeEvalWrapped x := by
  rw [unescapeEvalWrapped.eq_def]
  split <;> simp_all

theorem unescapeInnerDelimiters_cons_ne (c : Char) (x : Chars) (h : c ≠ '\\') :
    unescapeInnerDelimiters (c :: x) = c :: unescapeInnerDelimiters x := by
  rw [unescapeInnerDelimiters.eq_def]
  split <;> simp_all

theorem escapeNewlines_cons_ne (c : Char) (x : Chars) (h : c ≠ '\n') :
    escapeNewlines (c :: x) = c :: escapeNewlines x := by
  rw [escapeNewlines.eq_def]
  split <;> simp_all

theorem escapeNbsp_cons_ne (c : Char) (x : Chars) (h : c ≠ '\u00a0') :
    escapeNbsp (c :: x) = c :: escapeNbsp x := by
  rw [escapeNbsp.eq_def]
  split <;> simp_all

/-! ### Identity lemmas on backslash-free and delimiter-free strings -/

theorem unescapeNewlines_of_no_backslash (s : Chars) (h : ∀ c ∈ s, c ≠ '\\') :
    unescapeNewlines s = s := by
  induction s with
  | nil => rfl
  | cons c t ih =>
    rw [unescapeNewlines_cons_ne c t (h c (List.mem_cons_self c t)),
      ih fun c hc => h c (List.mem_cons_of_mem _ hc)]

theorem unescapeNbsp_of_no_backslash (s : Chars) (h : ∀ c ∈ s, c ≠ '\\') :
    unescapeNbsp s = s := by
  induction s with
  | nil => rfl
  | cons c t ih =>
    rw [unescapeNbsp_cons_ne c t (h c (List.mem_cons_self c t)),
      ih fun c hc => h c (List.mem_cons_of_mem _ hc)]

theorem unescapeEvalWrapped_of_no_backslash (s : Chars) (h : ∀ c ∈ s, c ≠ '\\') :
    unescapeEvalWrapped s = s := by
  induction s with
  | nil => rfl
  | cons c t ih =>
    rw [unescapeEvalWrapped_cons_ne c t (h c (List.mem_cons_self c t)),
      ih fun c hc => h c (List.mem_cons_of_mem _ hc)]

theorem unescapeInnerDelimiters_of_no_backslash (s : Chars) (h : ∀ c ∈ s, c ≠ '\\') :
    unescapeInnerDelimiters s = s := by
  induction s with
  | nil => rfl
  | cons c t ih =>
    rw [unescapeInnerDelimiters_cons_ne c t (h c (List.mem_cons_self c t)),
      ih fun c hc => h c (List.mem_cons_of_mem _ hc)]

theorem stripOuterDelimiters_of_no_delimiter (s : Chars)
    (h : ∀ c ∈ s, isStringDelimiter c = false) : stripOuterDelimiters s = s := by
  match s with
  | [] => rfl
  | [_] => rfl
  | c :: d :: t =>
    show (match (d :: t).getLast? with
      | some d' => if isStringDelimiter c && isStringDelimiter d' then (d :: t).dropLast
          else c :: d :: t
      | none => c :: d :: t) = c :: d :: t
    rw [h c (List.mem_cons_self c _)]
    cases (d :: t).getLast? <;> simp

theorem resolveConcatenationsAux_of_no_delimiter (fuel : Nat) (s : Chars)
    (h : ∀ c ∈ s, isStringDelimiter c = false) :
    resolveConcatenationsAux fuel s = s := by
  induction fuel generalizing s with
  | zero => rfl
  | succ fuel ih =>
    match s with
    | [] => rfl
    | c :: t =>
      rw [resolveConcatenationsAux, h c (List.mem_cons_self c t)]
      simp only [Bool.false_eq_true, if_false]
      rw [ih t fun c hc => h c (List.mem_cons_of_mem _ hc)]

theorem resolveConcatenations_of_no_delimiter (s : Chars)
    (h : ∀ c ∈ s, isStringDelimiter c = false) : resolveConcatenations s = s :=
  resolveConcatenationsAux_of_no_delimiter s.length s h

theorem escapeInnerDelimiters_of_no_delimiter (prev : Option Char) (s : Chars)
    (h : ∀ c ∈ s, isStringDelimiter c = false) :
    escapeInnerDelimiters prev s = s := by
  induction s generalizing prev with
  | nil => rfl
  | cons c t ih =>
    rw [escapeInnerDelimiters, h c (List.mem_cons_self c t)]
    simp only [Bool.false_and, Bool.false_eq_true, if_false]
    rw [ih (some c) fun c hc => h c (List.mem_cons_of_mem _ hc)]

/-- The newline/non-breaking-space escaping steps introduce no string
delimiter characters. -/
theorem escapeNewlines_no_delimiter (s : Chars)
    (h : ∀ c ∈ s, isStringDelimiter c = false) :
    ∀ c ∈ escapeNewlines s, isStringDelimiter c = false := by
  induction s with
  | nil => simp [escapeNewlines]
  | cons c t ih =>
    intro d hd
    by_cases hc : c = '\n'
    · subst hc
      rw [show escapeNewlines ('\n' :: t) = '\\' :: 'n' :: escapeNewlines t from rfl] at hd
      rcases hd with _ | ⟨_, _ | ⟨_, hd⟩⟩
      · rfl
      · rfl
      · exact ih (fun c hc => h c (List.mem_cons_of_mem _ hc)) d hd
    · rw [escapeNewlines_cons_ne c t hc] at hd
      rcases hd with _ | ⟨_, hd⟩
      · exact h c (List.mem_cons_self c t)
      · exact ih (fun c hc => h c (List.mem_cons_of_mem _ hc)) d hd

theorem escapeNbsp_no_delimiter (s : Chars)
    (h : ∀ c ∈ s, isStringDelimiter c = false) :
    ∀ c ∈ escapeNbsp s, isStringDelimiter c = false := by
  induction s with
  | nil => simp [escapeNbsp]
  | cons c t ih =>
    intro d hd
    by_cases hc : c = '\u00a0'
    · subst hc
      rw [show escapeNbsp ('\u00a0' :: t)
          = '\\' :: 'u' :: '0' :: '0' :: 'a' :: '0' :: escapeNbsp t from rfl] at hd
      simp only [List.mem_cons] at hd
      rcases hd with rfl | rfl | rfl | rfl | rfl | rfl | hd
      · rfl
      · rfl
      · rfl
      · rfl
      · rfl
      · rfl
      · exact ih (fun c hc => h c (List.mem_cons_of_mem _ hc)) d hd
    · rw [escapeNbsp_cons_ne c t hc] at hd
      rcases hd with _ | ⟨_, hd⟩
      · exact h c (List.mem_cons_self c t)
      · exact ih (fun c hc => h c (List.mem_cons_of_mem _ hc)) d hd

/-! ### Round-trip lemmas -/

/-- Undoing the eval-wrapping escapes recovers the escaped text exactly. -/
theorem unescapeEvalWrapped_escapeEvalWrapped (l r : Chars) :
    unescapeEvalWrapped (escapeEvalWrapped l ++ r) = l ++ unescapeEvalWrapped r := by
  induction l with
  | nil => rfl
  | cons c t ih =>
    rw [escapeEvalWrapped]
    by_cases hc : c == '"' || c == '\\'
    · rw [if_pos hc]
      rcases Bool.or_eq_true_iff.mp hc with hc | hc
      · rw [eq_of_beq hc]
        show unescapeEvalWrapped ('\\' :: '"' :: (escapeEvalWrapped t ++ r)) = _
        rw [unescapeEvalWrapped, ih]
        rw [eq_of_beq hc] at *
        rfl
      · rw [eq_of_beq hc]
        show unescapeEvalWrapped ('\\' :: '\\' :: (escapeEvalWrapped t ++ r)) = _
        rw [show unescapeEvalWrapped ('\\' :: '\\' :: (escapeEvalWrapped t ++ r))
            = '\\' :: unescapeEvalWrapped (escapeEvalWrapped t ++ r) from rfl, ih]
        rw [eq_of_beq hc] at *
        rfl
    · rw [if_neg hc]
      have hbs : c ≠ '\\' := by
        intro hh
        exact hc (by rw [hh]; simp)
      show unescapeEvalWrapped (c :: (escapeEvalWrapped t ++ r)) = _
      rw [unescapeEvalWrapped_cons_ne c _ hbs, ih]
      rfl

/-- Unescaping newlines across the escaped image of a plain string undoes
exactly the newline escapes and leaves the non-breaking-space escapes in
place. -/
theorem unescapeNewlines_escaped (s r : Chars) (h : ∀ c ∈ s, plainChar c = true) :
    unescapeNewlines (escapeNbsp (escapeNewlines s) ++ r)
      = escapeNbsp s ++ unescapeNewlines r := by
  induction s with
  | nil => rfl
  | cons c t ih =>
    have ht : ∀ c ∈ t, plainChar c = true := fun c hc => h c (List.mem_cons_of_mem _ hc)
    have hc' : plainChar c = true := h c (List.mem_cons_self c t)
    have hbs : c ≠ '\\' := by
      intro hh
      rw [hh] at hc'
      exact absurd hc' (by decide)
    by_cases hnl : c = '\n'
    · subst hnl
      show unescapeNewlines (escapeNbsp ('\\' :: 'n' :: escapeNewlines t) ++ r) = _
      rw [show escapeNbsp ('\\' :: 'n' :: escapeNewlines t)
          = '\\' :: 'n' :: escapeNbsp (escapeNewlines t) from rfl]
      show unescapeNewlines ('\\' :: 'n' :: (escapeNbsp (escapeNewlines t) ++ r)) = _
      rw [show unescapeNewlines ('\\' :: 'n' :: (escapeNbsp (escapeNewlines t) ++ r))
          = '\n' :: unescapeNewlines (escapeNbsp (escapeNewlines t) ++ r) from rfl, ih ht]
      rfl
    · by_cases hnb : c = '\u00a0'
      · subst hnb
        rw [escapeNewlines_cons_ne _ t (by decide)]
        rw [show escapeNbsp ('\u00a0' :: escapeNewlines t)
            = '\\' :: 'u' :: '0' :: '0' :: 'a' :: '0' :: escapeNbsp (escapeNewlines t)
            from rfl]
        show unescapeNewlines ('\\' :: 'u' :: '0' :: '0' :: 'a' :: '0'
          :: (escapeNbsp (escapeNewlines t) ++ r)) = _
        rw [show unescapeNewlines ('\\' :: 'u' :: '0' :: '0' :: 'a' :: '0'
            :: (escapeNbsp (escapeNewlines t) ++ r))
            = '\\' :: 'u' :: '0' :: '0' :: 'a' :: '0'
              :: unescapeNewlines (escapeNbsp (escapeNewlines t) ++ r) from rfl, ih ht]
        rfl
      · rw [escapeNewlines_cons_ne c t hnl, escapeNbsp_cons_ne c _ hnb]
        show unescapeNewlines (c :: (escapeNbsp (escapeNewlines t) ++ r)) = _
        rw [unescapeNewlines_cons_ne c _ hbs, ih ht, escapeNbsp_cons_ne c t hnb]
        rfl

/-- Unescaping non-breaking spaces across the escaped image of a plain string
recovers the string. -/
theorem unescapeNbsp_escaped (s r : Chars) (h : ∀ c ∈ s, plainChar c = true) :
    unescapeNbsp (escapeNbsp s ++ r) = s ++ unescapeNbsp r := by
  induction s with
  | nil => rfl
  | cons c t ih =>
    have ht : ∀ c ∈ t, plainChar c = true := fun c hc => h c (List.mem_cons_of_mem _ hc)
    have hc' : plainChar c = true := h c (List.mem_cons_self c t)
    have hbs : c ≠ '\\' := by
      intro hh
      rw [hh] at hc'
      exact absurd hc' (by decide)
    by_cases hnb : c = '\u00a0'
    · subst hnb
      show unescapeNbsp ('\\' :: 'u' :: '0' :: '0' :: 'a' :: '0'
        :: (escapeNbsp t ++ r)) = _
      rw [show unescapeNbsp ('\\' :: 'u' :: '0' :: '0' :: 'a' :: '0'
          :: (escapeNbsp t ++ r)) = '\u00a0' :: unescapeNbsp (escapeNbsp t ++ r)
          from rfl, ih ht]
      rfl
    · rw [escapeNbsp_cons_ne c t hnb]
      show unescapeNbsp (c :: (escapeNbsp t ++ r)) = _
      rw [unescapeNbsp_cons_ne c _ hbs, ih ht]
      rfl

/-- Stripping the outer delimiters of a wrapped literal recovers the body. -/
theorem stripOuterDelimiters_wrap (s : Chars) :
    stripOuterDelimiters ('\'' :: (s ++ ['\''])) = s := by
  match s with
  | [] => rfl
  | a :: t =>
    show (match (a :: (t ++ ['\''])).getLast? with
      | some d => if isStringDelimiter '\'' && isStringDelimiter d
          then (a :: (t ++ ['\''])).dropLast else '\'' :: (a :: t ++ ['\''])
      | none => '\'' :: (a :: t ++ ['\''])) = a :: t
    rw [show a :: (t ++ ['\'']) = (a :: t) ++ ['\''] from rfl, List.getLast?_concat,
      List.dropLast_concat]
    rfl

/-- On plain strings `normalizeString` is the identity, in both modes. -/
theorem normalizeString_of_plain (s : Chars) (m : Bool)
    (h : ∀ c ∈ s, plainChar c = true) : normalizeString s m = s := by
  have hbs : ∀ c ∈ s, c ≠ '\\' := by
    intro c hc hh
    have := h c hc
    rw [hh] at this
    exact absurd this (by decide)
  have hdel : ∀ c ∈ s, isStringDelimiter c = false := by
    intro c hc
    have := h c hc
    rw [plainChar, Bool.and_eq_true, Bool.not_eq_true'] at this
    exact this.1
  have core : unescapeInnerDelimiters (resolveConcatenations (stripOuterDelimiters
      (unescapeNbsp (unescapeNewlines s)))) = s := by
    rw [unescapeNewlines_of_no_backslash s hbs, unescapeNbsp_of_no_backslash s hbs,
      stripOuterDelimiters_of_no_delimiter s hdel,
      resolveConcatenations_of_no_delimiter s hdel,
      unescapeInnerDelimiters_of_no_backslash s hbs]
  cases m with
  | false => exact core
  | true =>
    show unescapeInnerDelimiters (resolveConcatenations (stripOuterDelimiters
      (unescapeNbsp (unescapeNewlines (unescapeEvalWrapped s))))) = s
    rw [unescapeEvalWrapped_of_no_backslash s hbs]
    exact core

/-- Normalizing the encoding of a plain string recovers the string, in both
modes. -/
theorem normalizeString_encode_of_plain (s : Chars) (m : Bool)
    (h : ∀ c ∈ s, plainChar c = true) :
    normalizeString (encodeAsStringLiteral s m) m = s := by
  have hdel : ∀ c ∈ s, isStringDelimiter c = false := by
    intro c hc
    have := h c hc
    rw [plainChar, Bool.and_eq_true, Bool.not_eq_true'] at this
    exact this.1
  have hdel2 : ∀ c ∈ escapeNbsp (escapeNewlines s), isStringDelimiter c = false :=
    escapeNbsp_no_delimiter _ (escapeNewlines_no_delimiter _ hdel)
  have hesc : escapeInnerDelimiters none (escapeNbsp (escapeNewlines s))
      = escapeNbsp (escapeNewlines s) := escapeInnerDelimiters_of_no_delimiter _ _ hdel2
  have tailChain : unescapeInnerDelimiters (resolveConcatenations (stripOuterDelimiters
      (unescapeNbsp (unescapeNewlines
        ('\'' :: (escapeNbsp (escapeNewlines s) ++ ['\''])))))) = s := by
    rw [unescapeNewlines_cons_ne _ _ (by decide), unescapeNewlines_escaped s _ h,
      show unescapeNewlines ['\''] = ['\''] from rfl,
      unescapeNbsp_cons_ne _ _ (by decide), unescapeNbsp_escaped s _ h,
      show unescapeNbsp ['\''] = ['\''] from rfl, stripOuterDelimiters_wrap,
      resolveConcatenations_of_no_delimiter s hdel,
      unescapeInnerDelimiters_of_no_backslash s (by
        intro c hc hh
        have := h c hc
        rw [hh] at this
        exact absurd this (by decide))]
  cases m with
  | false =>
    show unescapeInnerDelimiters (resolveConcatenations (stripOuterDelimiters
      (unescapeNbsp (unescapeNewlines
        ('\'' :: (escapeInnerDelimiters none (escapeNbsp (escapeNewlines s)) ++ ['\''])))))) = s
    rw [hesc]
    exact tailChain
  | true =>
    show unescapeInnerDelimiters (resolveConcatenations (stripOuterDelimiters
      (unescapeNbsp (unescapeNewlines (unescapeEvalWrapped
        ('\'' :: (escapeEvalWrapped (escapeInnerDelimiters none
          (escapeNbsp (escapeNewlines s))) ++ ['\'']))))))) = s
    rw [hesc, unescapeEvalWrapped_cons_ne _ _ (by decide),
      unescapeEvalWrapped_escapeEvalWrapped,
      show unescapeEvalWrapped ['\''] = ['\''] from rfl]
    exact tailChain

/-! ## Claim C1: round trip of `normalizeString` and `encodeAsStringLiteral` -/

/-- C1, counterexample: for the string `'a'` (with its quotes) in direct mode,
`normalizeString (encodeAsStringLiteral s m) m` differs from
`normalizeString s m`: normalizing the raw string strips the outer quotes
(giving `a`), while encoding protects them with backslashes, so normalizing
the encoding yields `'a'` again. -/
theorem claim_c1_counterexample :
    ¬ (normalizeString (encodeAsStringLiteral ('\'' :: 'a' :: '\'' :: []) false) false
        = normalizeString ('\'' :: 'a' :: '\'' :: []) false) := by decide

/-- C1 (amended): for every string made of characters that are neither string
delimiters nor backslashes (newlines and non-breaking spaces arbitrary),
normalizing the encoding of the string equals normalizing the string itself,
in both the direct and the eval-wrapped mode.  For strings containing quote
delimiters or backslashes the equation can fail
(`claim_c1_counterexample`). -/
theorem claim_c1_roundtrip (s : Chars) (m : Bool) (h : s.all plainChar = true) :
    normalizeString (encodeAsStringLiteral s m) m = normalizeString s m := by
  have h' : ∀ c ∈ s, plainChar c = true := fun c hc => List.all_eq_true.mp h c hc
  rw [normalizeString_encode_of_plain s m h', normalizeString_of_plain s m h']

/-- Witness for `claim_c1_roundtrip` at a concrete string containing a newline
and a non-breaking space, in eval-wrapped mode. -/
theorem claim_c1_roundtrip_witness :
    ("hi".data ++ '\n' :: ' ' :: '!' :: []).all plainChar = true
      ∧ normalizeString (encodeAsStringLiteral
          ("hi".data ++ '\n' :: ' ' :: '!' :: []) true) true
        = normalizeString ("hi".data ++ '\n' :: ' ' :: '!' :: []) true :=
  ⟨by decide, claim_c1_roundtrip _ true (by decide)⟩

theorem objInsert_of_lookup_none {A : Type} (m : List (Chars × A)) (k : Chars) (v : A)
    (h : objLookup m k = none) : objInsert m k v = m ++ [(k, v)] := by
  rw [objLookup, Option.map_eq_none', List.find?_eq_none] at h
  rw [objInsert, if_neg]
  intro hany
  obtain ⟨h2, hm, hk⟩ := List.any_eq_true.mp hany
  exact h _ hm hk

theorem objLookup_append {A : Type} (m1 m2 : List (Chars × A)) (k : Chars) :
    objLookup (m1 ++ m2) k
      = match objLookup m1 k with
        | some v => some v
        | none => objLookup m2 k := by
  rw [objLookup, List.find?_append]
  cases hf : m1.find? (fun p => p.1 == k) with
  | none => rw [objLookup, hf]; rfl
  | some p => rw [objLookup, hf]; rfl

/-- With pairwise distinct normalized keys, the `forEach` loop only ever
appends, producing the normalized keys zipped with consecutive indices. -/
theorem buildTranslationKeyIndexFrom_eq (entries : List (Chars × Chars)) (i : Nat)
    (m : List (Chars × Nat))
    (hdisj : ∀ kv ∈ entries, objLookup m (normalizeString kv.1 false) = none)
    (hnodup : (entries.map (fun kv => normalizeString kv.1 false)).Nodup) :
    buildTranslationKeyIndexFrom i entries m
      = m ++ (entries.map (fun kv => normalizeString kv.1 false)).zip
          (List.range' i entries.length) := by
  induction entries generalizing i m with
  | nil => simp [buildTranslationKeyIndexFrom]
  | cons kv rest ih =>
    have hnd := hnodup
    rw [List.map_cons] at hnd
    obtain ⟨hnotmem, hnodtail⟩ := List.nodup_cons.mp hnd
    rw [buildTranslationKeyIndexFrom,
      objInsert_of_lookup_none _ _ _ (hdisj kv (List.mem_cons_self _ _))]
    rw [ih (i + 1) _ ?_ hnodtail]
    · rw [List.map_cons, List.length_cons, List.range'_succ, List.zip_cons_cons,
        List.append_assoc]
      rfl
    · intro kv2 hkv2
      rw [objLookup_append, hdisj kv2 (List.mem_cons_of_mem _ hkv2)]
      have hne : (normalizeString kv.1 false == normalizeString kv2.1 false) = false := by
        rw [beq_eq_false_iff_ne]
        intro he
        exact hnotmem (he ▸ List.mem_map_of_mem _ hkv2)
      simp [objLookup, List.find?, hne]

/-- C2 (amended): whenever normalization is injective on the reference
dictionary keys (no two raw keys share a normalized form), the built
`translationKeyIndexMap` is a bijection from its distinct normalized keys onto
the ordinals `0 .. N-1`, assigned in order of first appearance.  When two raw
keys collide after normalization the later entry overwrites the earlier
ordinal and the map misses ordinal `0` (`claim_c2_counterexample`). -/
theorem claim_c2_index_bijection (entries : List (Chars × Chars))
    (h : (entries.map (fun kv => normalizeString kv.1 false)).Nodup) :
    indexIsFirstAppearanceBijection (buildTranslationKeyIndex entries) := by
  rw [indexIsFirstAppearanceBijection, buildTranslationKeyIndex,
    buildTranslationKeyIndexFrom_eq entries 0 [] (fun kv _ => rfl) h]
  rw [List.nil_append]
  have hlen : (entries.map (fun kv => normalizeString kv.1 false)).length
      = (List.range' 0 entries.length).length := by
    rw [List.length_map, List.length_range']
  rw [List.map_snd_zip _ _ (le_of_eq hlen.symm), List.length_zip, List.length_map,
    List.length_range', Nat.min_self, List.range_eq_range']

/-- Witness for `claim_c2_index_bijection` on a two-entry reference
dictionary. -/
theorem claim_c2_index_bijection_witness :
    (([("hello".data, "Hello".data), ("bye".data, "Bye".data)].map
        (fun kv => normalizeString kv.1 false)).Nodup)
      ∧ indexIsFirstAppearanceBijection (buildTranslationKeyIndex
          [("hello".data, "Hello".data), ("bye".data, "Bye".data)]) :=
  ⟨by decide, claim_c2_index_bijection _ (by decide)⟩

/-- C2, counterexample: on `collidingReferenceEntries` the built index maps
its single distinct normalized key to ordinal `1`, so it is not a bijection
onto the ordinals below `N = 1`. -/
theorem claim_c2_counterexample :
    ¬ indexIsFirstAppearanceBijection (buildTranslationKeyIndex collidingReferenceEntries) := by
  rw [indexIsFirstAppearanceBijection]
  decide

theorem setAdd_mem_self (s : List Chars) (k : Chars) : k ∈ setAdd s k := by
  rw [setAdd]
  by_cases h : s.any (fun x => x == k)
  · rw [if_pos h]
    obtain ⟨x, hx, he⟩ := List.any_eq_true.mp h
    exact (eq_of_beq he) ▸ hx
  · rw [if_neg h]
    exact List.mem_append_right s (List.mem_singleton.mpr rfl)

theorem setAdd_mem_mono (s : List Chars) (k x : Chars) (h : x ∈ s) : x ∈ setAdd s k := by
  rw [setAdd]
  split
  · exact h
  · exact List.mem_append_left _ h

/-- The missing set only grows while the loop runs. -/
theorem optimizeTranslationUsagesGo_missing_mono (indexMap : List (Chars × Nat))
    (w : Bool) (sites : List UsageSite) (edits : List Edit) (missing used : List Chars)
    (x : Chars) (h : x ∈ missing) :
    x ∈ (optimizeTranslationUsagesGo indexMap w sites edits missing used).2.1 := by
  induction sites generalizing edits missing used with
  | nil => exact h
  | cons site rest ih =>
    rw [optimizeTranslationUsagesGo]
    cases objLookup indexMap (normalizeString site.keyText w) with
    | none => exact ih _ _ _ (setAdd_mem_mono _ _ _ h)
    | some idx => exact ih _ _ _ h

/-- A usage site whose normalized key has no index entry puts that key into
the missing set. -/
theorem optimizeTranslationUsagesGo_missing_of_absent (indexMap : List (Chars × Nat))
    (w : Bool) (sites : List UsageSite) (edits : List Edit) (missing used : List Chars)
    (site : UsageSite) (hmem : site ∈ sites)
    (habsent : objLookup indexMap (normalizeString site.keyText w) = none) :
    normalizeString site.keyText w
      ∈ (optimizeTranslationUsagesGo indexMap w sites edits missing used).2.1 := by
  induction sites generalizing edits missing used with
  | nil => cases hmem
  | cons site2 rest ih =>
    rw [optimizeTranslationUsagesGo]
    rcases List.mem_cons.mp hmem with heq | hmem2
    · subst heq
      rw [habsent]
      exact optimizeTranslationUsagesGo_missing_mono _ _ _ _ _ _ _
        (setAdd_mem_self _ _)
    · cases objLookup indexMap (normalizeString site2.keyText w) with
      | none => exact ih _ _ _ hmem2
      | some idx => exact ih _ _ _ hmem2

/-- Every edit the loop emits stems from a site whose normalized key is in
the index, and covers exactly that site's key span. -/
theorem optimizeTranslationUsagesGo_edits_mem (indexMap : List (Chars × Nat))
    (w : Bool) (sites : List UsageSite) (edits : List Edit) (missing used : List Chars)
    (e : Edit) (he : e ∈ (optimizeTranslationUsagesGo indexMap w sites edits missing used).1) :
    e ∈ edits ∨ ∃ site2 ∈ sites, (∃ idx,
      objLookup indexMap (normalizeString site2.keyText w) = some idx
        ∧ e.start = site2.keyStart ∧ e.stop = site2.keyStop) := by
  induction sites generalizing edits missing used with
  | nil => exact Or.inl he
  | cons site2 rest ih =>
    rw [optimizeTranslationUsagesGo] at he
    cases hl : objLookup indexMap (normalizeString site2.keyText w) with
    | none =>
      rw [hl] at he
      rcases ih _ _ _ he with h1 | ⟨s3, hs3, hrest⟩
      · exact Or.inl h1
      · exact Or.inr ⟨s3, List.mem_cons_of_mem _ hs3, hrest⟩
    | some idx =>
      rw [hl] at he
      rcases ih _ _ _ he with h1 | ⟨s3, hs3, hrest⟩
      · rcases List.mem_append.mp h1 with h2 | h2
        · exact Or.inl h2
        · refine Or.inr ⟨site2, List.mem_cons_self _ _, idx, hl, ?_, ?_⟩
          · rw [List.mem_singleton.mp h2]
          · rw [List.mem_singleton.mp h2]
      · exact Or.inr ⟨s3, List.mem_cons_of_mem _ hs3, hrest⟩

/-- C4 (confirmed): a usage site whose normalized key is absent from the
reference index is recorded in `missingTranslations`, and, provided the
regex matches have pairwise disjoint key spans (as produced by the forward
scan), no emitted edit touches that site's key span, so its text is applied
back byte for byte unchanged; the loop is total and never aborts the pass. -/
theorem claim_c4_missing_key_untouched (indexMap : List (Chars × Nat)) (w : Bool)
    (sites : List UsageSite) (site : UsageSite) (hmem : site ∈ sites)
    (habsent : objLookup indexMap (normalizeString site.keyText w) = none)
    (hdisj : ∀ s2 ∈ sites, s2 ≠ site → s2.keyStop < site.keyStart
      ∨ site.keyStop < s2.keyStart) :
    normalizeString site.keyText w ∈ (optimizeTranslationUsages indexMap w sites).2.1
      ∧ ∀ e ∈ (optimizeTranslationUsages indexMap w sites).1,
        e.stop < site.keyStart ∨ site.keyStop < e.start := by
  constructor
  · exact optimizeTranslationUsagesGo_missing_of_absent _ _ _ _ _ _ site hmem habsent
  · intro e he
    rcases optimizeTranslationUsagesGo_edits_mem _ _ _ _ _ _ e he with h1 | ⟨s2, hs2, idx, hidx, hstart, hstop⟩
    · cases h1
    · have hne : s2 ≠ site := by
        intro hh
        rw [hh, habsent] at hidx
        cases hidx
      rcases hdisj s2 hs2 hne with h2 | h2
      · exact Or.inl (hstop ▸ h2)
      · exact Or.inr (hstart ▸ h2)

/-- Witness for `claim_c4_missing_key_untouched`: one present and one absent
usage site; the absent key is reported missing and the only edit covers the
present site's span. -/
theorem claim_c4_missing_key_untouched_witness :
    (c4ExampleAbsentSite ∈ c4ExampleSites
        ∧ objLookup c4ExampleIndexMap
            (normalizeString c4ExampleAbsentSite.keyText false) = none)
      ∧ (normalizeString c4ExampleAbsentSite.keyText false
            ∈ (optimizeTranslationUsages c4ExampleIndexMap false c4ExampleSites).2.1
          ∧ ∀ e ∈ (optimizeTranslationUsages c4ExampleIndexMap false c4ExampleSites).1,
            e.stop < c4ExampleAbsentSite.keyStart
              ∨ c4ExampleAbsentSite.keyStop < e.start) :=
  ⟨⟨by decide, by decide⟩,
    claim_c4_missing_key_untouched c4ExampleIndexMap false c4ExampleSites
      c4ExampleAbsentSite (by decide) (by decide) (by decide)⟩

/-- The concatenation scanner copies a delimiter-free prefix verbatim,
spending one unit of fuel per character. -/
theorem resolveConcatenationsAux_plain_prefix (p : Chars)
    (hp : ∀ c ∈ p, isStringDelimiter c = false) (z : Chars) :
    ∀ fuel, p.length ≤ fuel →
      resolveConcatenationsAux fuel (p ++ z)
        = p ++ resolveConcatenationsAux (fuel - p.length) z := by
  induction p with
  | nil =>
    intro fuel _
    rfl
  | cons c q ih =>
    intro fuel hfuel
    match fuel, hfuel with
    | f + 1, hfuel =>
      show resolveConcatenationsAux (f + 1) (c :: (q ++ z)) = _
      rw [resolveConcatenationsAux, hp c (List.mem_cons_self _ _)]
      simp only [Bool.false_eq_true, if_false]
      rw [ih (fun c hc => hp c (List.mem_cons_of_mem _ hc)) f
        (Nat.le_of_succ_le_succ hfuel)]
      simp [Nat.succ_sub_succ]

theorem concatBody_length_cons (first t : Chars) (rest : List Chars) :
    (concatBody first (t :: rest)).length = first.length + 5 + (concatBody t rest).length := by
  rw [concatBody, List.length_append]
  simp [Nat.add_assoc, Nat.add_comm, Nat.add_left_comm]

/-- Resolving the concatenations of a body of plain segments joins all the
segments. -/
theorem resolveConcatenationsAux_concatBody (rest : List Chars) :
    ∀ (first : Chars) (fuel : Nat),
      (∀ seg ∈ first :: rest, ∀ c ∈ seg, plainChar c = true) →
      (concatBody first rest).length ≤ fuel →
      resolveConcatenationsAux fuel (concatBody first rest)
        = (first :: rest).flatten := by
  induction rest with
  | nil =>
    intro first fuel h _
    have hdel : ∀ c ∈ first, isStringDelimiter c = false := by
      intro c hc
      have := h first (List.mem_cons_self _ _) c hc
      rw [plainChar, Bool.and_eq_true, Bool.not_eq_true'] at this
      exact this.1
    rw [show concatBody first [] = first from rfl,
      resolveConcatenationsAux_of_no_delimiter fuel first hdel]
    simp
  | cons t rest2 ih =>
    intro first fuel h hfuel
    have hdelfirst : ∀ c ∈ first, isStringDelimiter c = false := by
      intro c hc
      have := h first (List.mem_cons_self _ _) c hc
      rw [plainChar, Bool.and_eq_true, Bool.not_eq_true'] at this
      exact this.1
    rw [concatBody, resolveConcatenationsAux_plain_prefix first hdelfirst _ fuel
      (le_trans (by rw [concatBody_length_cons first t rest2]; omega)
        hfuel)]
    have hlen : (concatBody first (t :: rest2)).length
        = first.length + 5 + (concatBody t rest2).length :=
      concatBody_length_cons first t rest2
    have hfuel2 : first.length + 5 + (concatBody t rest2).length ≤ fuel := by
      rw [← hlen]; exact hfuel
    obtain ⟨f2, hf2⟩ : ∃ f2, fuel - first.length = f2 + 1 := by
      refine ⟨fuel - first.length - 1, ?_⟩
      omega
    rw [hf2]
    rw [show resolveConcatenationsAux (f2 + 1)
        ('\'' :: ' ' :: '+' :: ' ' :: '\'' :: concatBody t rest2)
        = resolveConcatenationsAux f2 (concatBody t rest2) from by
      rw [resolveConcatenationsAux]
      rfl]
    rw [ih t f2 (fun seg hseg => h seg (List.mem_cons_of_mem _ hseg)) (by omega)]
    rfl

/-- C5 (amended): for a usage-site key operand that is a `+`-concatenation of
several plain-character string literals, the normalized key used for the
index lookup is the join of ALL literal segments, not only the first one;
`claim_c5_counterexample` exhibits the pipeline treating such a key
accordingly. -/
theorem claim_c5_lookup_uses_all_segments (first : Chars) (rest : List Chars)
    (h : ∀ seg ∈ first :: rest, ∀ c ∈ seg, plainChar c = true) :
    normalizeString (renderConcat first rest) false = (first :: rest).flatten := by
  have hplainrender : ∀ c ∈ renderConcat first rest, c ≠ '\\' := by
    intro c hc hbs
    subst hbs
    rw [renderConcat] at hc
    rcases List.mem_cons.mp hc with h1 | h1
    · cases h1
    · rcases List.mem_append.mp h1 with h2 | h2
      · clear hc h1
        induction rest generalizing first with
        | nil =>
          have := h first (List.mem_cons_self _ _) '\\' h2
          exact absurd this (by decide)
        | cons t r2 ih2 =>
          rw [concatBody] at h2
          rcases List.mem_append.mp h2 with h3 | h3
          · have := h first (List.mem_cons_self _ _) '\\' h3
            exact absurd this (by decide)
          · rcases h3 with _ | ⟨_, _ | ⟨_, _ | ⟨_, _ | ⟨_, _ | ⟨_, h4⟩⟩⟩⟩⟩
            exact ih2 t (fun seg hseg => h seg (by
              rcases List.mem_cons.mp hseg with h5 | h5
              · exact h5 ▸ List.mem_cons_of_mem _ (List.mem_cons_self _ _)
              · exact List.mem_cons_of_mem _ (List.mem_cons_of_mem _ h5))) h4
      · rcases h2 with _ | ⟨_, h3⟩
        cases h3
  rw [normalizeString]
  show unescapeInnerDelimiters (resolveConcatenations (stripOuterDelimiters
    (unescapeNbsp (unescapeNewlines (renderConcat first rest))))) = _
  rw [unescapeNewlines_of_no_backslash _ hplainrender,
    unescapeNbsp_of_no_backslash _ hplainrender,
    renderConcat, stripOuterDelimiters_wrap, resolveConcatenations,
    resolveConcatenationsAux_concatBody rest first _ h (le_refl _)]
  apply unescapeInnerDelimiters_of_no_backslash
  intro c hc
  intro hbs
  subst hbs
  rw [List.mem_flatten] at hc
  obtain ⟨seg, hseg, hcseg⟩ := hc
  have := h seg hseg '\\' hcseg
  exact absurd this (by decide)

/-- Witness for `claim_c5_lookup_uses_all_segments`: normalizing
`'a' + 'b'` yields `ab`. -/
theorem claim_c5_lookup_uses_all_segments_witness :
    (∀ seg ∈ ["a".data, "b".data], ∀ c ∈ seg, plainChar c = true)
      ∧ normalizeString (renderConcat "a".data ["b".data]) false
        = (["a".data, "b".data] : List Chars).flatten :=
  ⟨by decide, claim_c5_lookup_uses_all_segments "a".data ["b".data] (by decide)⟩

/-- C5, counterexample: with the reference index containing exactly the first
segment `a` of the concatenated key `'a' + 'b'`, the pass does not rewrite
the site (no edit is emitted) and reports the joined key `ab` as missing,
although a lookup of the first segment alone would have succeeded. -/
theorem claim_c5_counterexample :
    (optimizeTranslationUsages c4ExampleIndexMap false
        [⟨0, "$t(".data, renderConcat "a".data ["b".data]⟩]).1 = []
      ∧ (optimizeTranslationUsages c4ExampleIndexMap false
          [⟨0, "$t(".data, renderConcat "a".data ["b".data]⟩]).2.1 = ["ab".data]
      ∧ normalizeString (renderConcat "a".data ["b".data]) false = "ab".data
      ∧ objLookup c4ExampleIndexMap
          (normalizeString ('\'' :: 'a' :: '\'' :: []) false) = some 0 := by
  decide

/-- C6 (amended): the artifact selected as the reference is exactly the FIRST
one whose basename contains the token `en` at a word boundary immediately
FOLLOWED by a hyphen or a dot (the regex is `\ben[-.]`); the claimed
"immediately preceded by a hyphen or a dot" reading is refuted by
`claim_c6_counterexample`. -/
theorem claim_c6_reference_selection (filenames : List Chars) (f : Chars) :
    findReferenceFilename filenames = some f
      ↔ testReferenceLanguageFilename f = true
        ∧ ∃ pre post, filenames = pre ++ f :: post
            ∧ ∀ g ∈ pre, testReferenceLanguageFilename g = false := by
  induction filenames with
  | nil =>
    constructor
    · intro h
      cases h
    · rintro ⟨-, pre, post, hsplit, -⟩
      cases pre <;> cases hsplit
  | cons a rest ih =>
    cases ha : testReferenceLanguageFilename a with
    | true =>
      rw [findReferenceFilename, List.find?_cons_of_pos _ (by rw [ha])]
      constructor
      · intro h
        obtain rfl : a = f := by cases h; rfl
        exact ⟨ha, [], rest, rfl, by intro g hg; cases hg⟩
      · rintro ⟨hf, pre, post, hsplit, hpre⟩
        cases pre with
        | nil =>
          cases hsplit
          rfl
        | cons b pre2 =>
          obtain ⟨rfl, -⟩ := List.cons.injEq .. ▸ hsplit
          rw [hpre a (List.mem_cons_self _ _)] at ha
          cases ha
    | false =>
      rw [findReferenceFilename, List.find?_cons_of_neg _ (by simp [ha]),
        show List.find? (fun f => testReferenceLanguageFilename f) rest
          = findReferenceFilename rest from rfl]
      constructor
      · intro h
        obtain ⟨hf, pre, post, hsplit, hpre⟩ := ih.mp h
        refine ⟨hf, a :: pre, post, by rw [hsplit]; rfl, ?_⟩
        intro g hg
        rcases List.mem_cons.mp hg with rfl | hg2
        · exact ha
        · exact hpre g hg2
      · rintro ⟨hf, pre, post, hsplit, hpre⟩
        cases pre with
        | nil =>
          cases hsplit
          rw [ha] at hf
          cases hf
        | cons b pre2 =>
          have hb : b = a := ((List.cons.injEq .. ▸ hsplit).1).symm
          subst hb
          have htail : rest = pre2 ++ f :: post := (List.cons.injEq .. ▸ hsplit).2
          exact ih.mpr ⟨hf, pre2, post, htail,
            fun g hg => hpre g (List.mem_cons_of_mem _ hg)⟩

/-- C6, counterexample: the reference artifact actually selected for the
filename `en-po.js` contains no occurrence of `en` preceded by a hyphen or a
dot, refuting the claimed selection rule. -/
theorem claim_c6_counterexample :
    findReferenceFilename ["en-po.js".data] = some "en-po.js".data
      ∧ containsEnPrecededBySeparator (basename "en-po.js".data) = false := by
  constructor
  · rfl
  · decide

/-- C7 (amended): an artifact is classified as a language artifact exactly
when its filename ends in `.js`, does not contain `chunk-vendors`, and
matches the `-po(?:-legacy)?(?:\.[^.]*)?\.js$` pattern CASE-SENSITIVELY; the
remaining `.js` artifacts without `chunk-vendors` go to the other-artifacts
set, and artifacts failing the `.js`/`chunk-vendors` precondition are skipped
entirely and appear in neither set. -/
theorem claim_c7_classifier (filenames : List Chars) (f : Chars) :
    (f ∈ (categorizeAssets filenames).1
      ↔ f ∈ filenames ∧ endsWithDotJs f = true ∧ includesChunkVendors f = false
          ∧ matchesLanguageFilePattern f = true)
    ∧ (f ∈ (categorizeAssets filenames).2
      ↔ f ∈ filenames ∧ endsWithDotJs f = true ∧ includesChunkVendors f = false
          ∧ matchesLanguageFilePattern f = false) := by
  induction filenames with
  | nil =>
    constructor <;> constructor
    · intro h
      cases h
    · rintro ⟨h, -⟩
      cases h
    · intro h
      cases h
    · rintro ⟨h, -⟩
      cases h
  | cons a rest ih =>
    rw [show categorizeAssets (a :: rest)
        = (if !endsWithDotJs a || includesChunkVendors a then categorizeAssets rest
          else if matchesLanguageFilePattern a
            then (a :: (categorizeAssets rest).1, (categorizeAssets rest).2)
            else ((categorizeAssets rest).1, a :: (categorizeAssets rest).2)) from rfl]
    by_cases hskip : (!endsWithDotJs a || includesChunkVendors a) = true
    · rw [if_pos hskip]
      have hskip2 : endsWithDotJs a = false ∨ includesChunkVendors a = true := by
        rcases Bool.or_eq_true_iff.mp hskip with h1 | h1
        · exact Or.inl (Bool.not_eq_true' .. ▸ h1)
        · exact Or.inr h1
      constructor <;> constructor
      · intro h
        obtain ⟨hmem, h2⟩ := (ih.1.mp h)
        exact ⟨List.mem_cons_of_mem _ hmem, h2⟩
      · rintro ⟨hmem, hjs, hcv, hpat⟩
        rcases List.mem_cons.mp hmem with rfl | hmem2
        · rcases hskip2 with h1 | h1
          · rw [hjs] at h1
            cases h1
          · rw [hcv] at h1
            cases h1
        · exact ih.1.mpr ⟨hmem2, hjs, hcv, hpat⟩
      · intro h
        obtain ⟨hmem, h2⟩ := (ih.2.mp h)
        exact ⟨List.mem_cons_of_mem _ hmem, h2⟩
      · rintro ⟨hmem, hjs, hcv, hpat⟩
        rcases List.mem_cons.mp hmem with rfl | hmem2
        · rcases hskip2 with h1 | h1
          · rw [hjs] at h1
            cases h1
          · rw [hcv] at h1
            cases h1
        · exact ih.2.mpr ⟨hmem2, hjs, hcv, hpat⟩
    · rw [if_neg hskip]
      have hjs : endsWithDotJs a = true := by
        by_contra hh
        exact hskip (by rw [Bool.not_eq_true] at hh; rw [hh]; rfl)
      have hcv : includesChunkVendors a = false := by
        by_contra hh
        rw [Bool.not_eq_false] at hh
        exact hskip (by rw [hh, Bool.or_true])
      by_cases hpat : matchesLanguageFilePattern a = true
      · rw [if_pos hpat]
        constructor <;> constructor
        · intro h
          rcases List.mem_cons.mp h with rfl | h2
          · exact ⟨List.mem_cons_self _ _, hjs, hcv, hpat⟩
          · obtain ⟨hmem, h3⟩ := ih.1.mp h2
            exact ⟨List.mem_cons_of_mem _ hmem, h3⟩
        · rintro ⟨hmem, hjs2, hcv2, hpat2⟩
          rcases List.mem_cons.mp hmem with rfl | hmem2
          · exact List.mem_cons_self _ _
          · exact List.mem_cons_of_mem _ (ih.1.mpr ⟨hmem2, hjs2, hcv2, hpat2⟩)
        · intro h
          obtain ⟨hmem, h3⟩ := ih.2.mp h
          exact ⟨List.mem_cons_of_mem _ hmem, h3⟩
        · rintro ⟨hmem, hjs2, hcv2, hpat2⟩
          rcases List.mem_cons.mp hmem with rfl | hmem2
          · rw [hpat] at hpat2
            cases hpat2
          · exact ih.2.mpr ⟨hmem2, hjs2, hcv2, hpat2⟩
      · rw [if_neg hpat]
        rw [Bool.not_eq_true] at hpat
        constructor <;> constructor
        · intro h
          obtain ⟨hmem, h3⟩ := ih.1.mp h
          exact ⟨List.mem_cons_of_mem _ hmem, h3⟩
        · rintro ⟨hmem, hjs2, hcv2, hpat2⟩
          rcases List.mem_cons.mp hmem with rfl | hmem2
          · rw [hpat] at hpat2
            cases hpat2
          · exact ih.1.mpr ⟨hmem2, hjs2, hcv2, hpat2⟩
        · intro h
          rcases List.mem_cons.mp h with rfl | h2
          · exact ⟨List.mem_cons_self _ _, hjs, hcv, hpat⟩
          · obtain ⟨hmem, h3⟩ := ih.2.mp h2
            exact ⟨List.mem_cons_of_mem _ hmem, h3⟩
        · rintro ⟨hmem, hjs2, hcv2, hpat2⟩
          rcases List.mem_cons.mp hmem with rfl | hmem2
          · exact List.mem_cons_self _ _
          · exact List.mem_cons_of_mem _ (ih.2.mpr ⟨hmem2, hjs2, hcv2, hpat2⟩)

/-- C7, counterexample: `foo-PO.js` satisfies the claimed case-insensitive
language-artifact rule but the pass classifies it as an other artifact (the
regex has no `i` flag); moreover `style.css` lands in neither set instead of
the claimed other-artifacts set. -/
theorem claim_c7_counterexample :
    claimedIsLanguageArtifact "foo-PO.js".data = true
      ∧ (categorizeAssets ["foo-PO.js".data]).1 = []
      ∧ (categorizeAssets ["foo-PO.js".data]).2 = ["foo-PO.js".data]
      ∧ (categorizeAssets ["style.css".data]).1 = []
      ∧ (categorizeAssets ["style.css".data]).2 = [] := by
  decide

theorem objLookup_mem {A : Type} (m : List (Chars × A)) (k : Chars) (v : A)
    (h : objLookup m k = some v) : (k, v) ∈ m := by
  rw [objLookup] at h
  obtain ⟨p, hfind, hpv⟩ := Option.map_eq_some'.mp h
  have hmem := List.mem_of_find?_eq_some hfind
  have hb := List.find?_some hfind
  have hk : p.1 = k := eq_of_beq hb
  obtain ⟨p1, p2⟩ := p
  cases hk
  cases hpv
  exact hmem

theorem objLookup_of_mem {A : Type} (m : List (Chars × A)) (k : Chars) (v : A)
    (hk : (m.map Prod.fst).Nodup) (h : (k, v) ∈ m) : objLookup m k = some v := by
  induction m with
  | nil => cases h
  | cons p rest ih =>
    rw [List.map_cons] at hk
    obtain ⟨hnot, hk2⟩ := List.nodup_cons.mp hk
    rcases List.mem_cons.mp h with rfl | h2
    · rw [objLookup, List.find?_cons_of_pos _ (by simp)]
      rfl
    · have hne : (p.1 == k) = false := by
        rw [beq_eq_false_iff_ne]
        intro he
        exact hnot (he ▸ List.mem_map_of_mem Prod.fst h2)
      rw [objLookup, List.find?_cons_of_neg _ (by simp [hne])]
      exact ih hk2 h2

theorem mem_value_inj {A : Type} [DecidableEq A] (m : List (Chars × A))
    (hv : (m.map Prod.snd).Nodup) (k1 k2 : Chars) (v : A)
    (h1 : (k1, v) ∈ m) (h2 : (k2, v) ∈ m) : k1 = k2 := by
  have := List.inj_on_of_nodup_map hv h1 h2 (by rfl)
  exact congrArg Prod.fst this

theorem count_filterMap_eq_length_filter {α β : Type} [DecidableEq β] [BEq α]
    (f : α → Option β) (l : List α) (b : β) :
    (l.filterMap f).count b = (l.filter (fun a => f a == some b)).length := by
  induction l with
  | nil => rfl
  | cons a rest ih =>
    rw [List.filterMap_cons]
    cases hf : f a with
    | none =>
      rw [List.filter_cons, show (f a == some b) = false by rw [hf]; rfl]
      simpa using ih
    | some c =>
      rw [List.filter_cons, show (f a == some b) = (c == b) by rw [hf]; rfl]
      by_cases hcb : c = b
      · subst hcb
        rw [List.count_cons_self]
        simp [ih]
      · rw [List.count_cons_of_ne (fun hh => hcb hh.symm)]
        have : (c == b) = false := by
          rw [beq_eq_false_iff_ne]
          exact hcb
        rw [this]
        simpa using ih

theorem synthesizedOrdinals_eq_filterMap (indexMap : List (Chars × Nat))
    (fallbackTranslations : List (Chars × Chars)) (w : Bool)
    (entries : List TranslationEntry) :
    synthesizedOrdinals indexMap fallbackTranslations w entries
      = (missingTranslationKeys indexMap w entries).filterMap
          (fun k => objLookup indexMap k) := by
  rw [synthesizedOrdinals]
  generalize missingTranslationKeys indexMap w entries = missing
  induction missing with
  | nil => rfl
  | cons k rest ih =>
    rw [synthesizedFallbackEntries, List.filterMap_cons, List.filterMap_cons]
    cases objLookup indexMap k with
    | none => exact ih
    | some idx =>
      rw [List.map_cons]
      rw [show synthesizedFallbackEntries indexMap fallbackTranslations rest
          = rest.filterMap (fun k => match objLookup indexMap k with
            | none => none
            | some translationKeyIndex =>
              some (translationKeyIndex, fallbackOrKey fallbackTranslations k)) from rfl] at ih
      rw [ih]

theorem joinWithCommas_cons_cons (x y : Chars) (t : List Chars) :
    joinWithCommas (x :: y :: t) = x ++ ',' :: joinWithCommas (y :: t) := rfl

/-- The flag-threaded insertion loop emits comma-separated items, with a
leading separator comma exactly when the dictionary lacks a trailing comma
and at least one entry is synthesized. -/
theorem synthesizedInsertText_characterization (w : Bool) (pairs : List (Nat × Chars))
    (flag : Bool) :
    synthesizedInsertText w pairs flag
      = (if flag = false ∧ pairs ≠ [] then [','] else [])
        ++ joinWithCommas (pairs.map (synthesizedItem w)) := by
  induction pairs generalizing flag with
  | nil => cases flag <;> rfl
  | cons p rest ih =>
    obtain ⟨idx, fb⟩ := p
    rw [synthesizedInsertText, ih false]
    cases rest with
    | nil => cases flag <;> simp [joinWithCommas, synthesizedItem]
    | cons q t =>
      simp only [List.map_cons, joinWithCommas_cons_cons]
      cases flag <;> simp [synthesizedItem, List.append_assoc]

theorem count_filter_of_pos {α : Type} [BEq α] [LawfulBEq α] (l : List α) (p : α → Bool)
    (a : α) (h : p a = true) : (l.filter p).count a = l.count a := by
  induction l with
  | nil => rfl
  | cons x rest ih =>
    rw [List.filter_cons]
    by_cases hx : x = a
    · subst hx
      rw [h]
      simp only [if_true]
      rw [List.count_cons_self, List.count_cons_self, ih]
    · cases hp : p x with
      | true =>
        simp only [if_true]
        rw [List.count_cons_of_ne (fun hh => hx hh.symm),
          List.count_cons_of_ne (fun hh => hx hh.symm), ih]
      | false =>
        simp only [Bool.false_eq_true, if_false]
        rw [List.count_cons_of_ne (fun hh => hx hh.symm), ih]

theorem count_eq_one_of_nodup_mem {α : Type} [BEq α] [LawfulBEq α] (l : List α)
    (hnd : l.Nodup) (a : α) (ha : a ∈ l) : l.count a = 1 := by
  induction l with
  | nil => cases ha
  | cons x rest ih =>
    obtain ⟨hnot, hnd2⟩ := List.nodup_cons.mp hnd
    rcases List.mem_cons.mp ha with rfl | ha2
    · rw [List.count_cons_self, List.count_eq_zero.mpr hnot]
    · have hne : a ≠ x := by
        intro hh
        exact hnot (hh ▸ ha2)
      rw [List.count_cons_of_ne hne, ih hnd2 ha2]

/-- C3 (amended): assume the reference keys normalize injectively and the
artifact's matched entries have pairwise distinct normalized keys.  Then for
every `(key, ordinal)` pair of the reference index, the number of artifact
entries rewritten to that ordinal plus the number of fallback entries
synthesized for it is exactly one, and the synthesized text inserted
immediately before the dictionary's closing brace consists of
comma-separated `ordinal:'fallback'` items with a leading separator comma
exactly when the dictionary has no trailing comma (and at least one item is
synthesized).  Without the distinctness assumption on the artifact an ordinal
can receive two rewritten entries (`claim_c3_counterexample`). -/
theorem claim_c3_exactly_one_per_ordinal (refEntries : List (Chars × Chars))
    (fallbackTranslations : List (Chars × Chars)) (entries : List TranslationEntry)
    (w : Bool) (hasTrailingComma : Bool)
    (href : (refEntries.map (fun kv => normalizeString kv.1 false)).Nodup)
    (hent : (entries.map (fun e => normalizeString e.keyText w)).Nodup) :
    (∀ k i, (k, i) ∈ buildTranslationKeyIndex refEntries →
        (rewrittenOrdinals (buildTranslationKeyIndex refEntries) w entries).count i
          + (synthesizedOrdinals (buildTranslationKeyIndex refEntries)
              fallbackTranslations w entries).count i = 1)
      ∧ synthesizedInsertText w
          (synthesizedFallbackEntries (buildTranslationKeyIndex refEntries)
            fallbackTranslations
            (missingTranslationKeys (buildTranslationKeyIndex refEntries) w entries))
          hasTrailingComma
        = (if hasTrailingComma = false
              ∧ synthesizedFallbackEntries (buildTranslationKeyIndex refEntries)
                  fallbackTranslations
                  (missingTranslationKeys (buildTranslationKeyIndex refEntries) w entries)
                ≠ []
            then [','] else [])
          ++ joinWithCommas
            ((synthesizedFallbackEntries (buildTranslationKeyIndex refEntries)
                fallbackTranslations
                (missingTranslationKeys (buildTranslationKeyIndex refEntries) w entries)).map
              (synthesizedItem w)) := by
  have hform : buildTranslationKeyIndex refEntries
      = (refEntries.map (fun kv => normalizeString kv.1 false)).zip
          (List.range' 0 refEntries.length) := by
    rw [buildTranslationKeyIndex,
      buildTranslationKeyIndexFrom_eq refEntries 0 [] (fun kv _ => rfl) href,
      List.nil_append]
  have hlen : (refEntries.map (fun kv => normalizeString kv.1 false)).length
      = (List.range' 0 refEntries.length).length := by
    rw [List.length_map, List.length_range']
  have hkeys : ((buildTranslationKeyIndex refEntries).map Prod.fst).Nodup := by
    rw [hform, List.map_fst_zip _ _ (le_of_eq hlen)]
    exact href
  have hvals : ((buildTranslationKeyIndex refEntries).map Prod.snd).Nodup := by
    rw [hform, List.map_snd_zip _ _ (le_of_eq hlen.symm)]
    exact List.nodup_range' _ _
  refine ⟨?_, synthesizedInsertText_characterization w _ hasTrailingComma⟩
  intro k i hmem
  have hlk : objLookup (buildTranslationKeyIndex refEntries) k = some i :=
    objLookup_of_mem _ k i hkeys hmem
  have hcount1 : (rewrittenOrdinals (buildTranslationKeyIndex refEntries) w entries).count i
      = (entries.map (fun e => normalizeString e.keyText w)).count k := by
    rw [rewrittenOrdinals, count_filterMap_eq_length_filter]
    have hpt : ∀ e ∈ entries,
        (objLookup (buildTranslationKeyIndex refEntries)
            (normalizeString e.keyText w) == some i)
          = ((fun e => normalizeString e.keyText w == k) e) := by
      intro e _
      by_cases h1 : normalizeString e.keyText w = k
      · rw [show (fun e => normalizeString e.keyText w == k) e
            = (normalizeString e.keyText w == k) from rfl, h1, hlk]
        simp
      · have h2 : objLookup (buildTranslationKeyIndex refEntries)
            (normalizeString e.keyText w) ≠ some i := by
          intro hh
          exact h1 (mem_value_inj _ hvals _ _ i (objLookup_mem _ _ _ hh) hmem)
        rw [show (fun e => normalizeString e.keyText w == k) e
            = (normalizeString e.keyText w == k) from rfl,
          beq_eq_false_iff_ne.mpr h2, beq_eq_false_iff_ne.mpr h1]
    rw [List.filter_congr hpt]
    rw [List.count, List.countP_map, List.countP_eq_length_filter]
    rfl
  have hcount2 : (synthesizedOrdinals (buildTranslationKeyIndex refEntries)
        fallbackTranslations w entries).count i
      = (missingTranslationKeys (buildTranslationKeyIndex refEntries) w entries).count k := by
    rw [synthesizedOrdinals_eq_filterMap, count_filterMap_eq_length_filter]
    have hpt2 : ∀ k2 ∈ missingTranslationKeys (buildTranslationKeyIndex refEntries) w entries,
        (objLookup (buildTranslationKeyIndex refEntries) k2 == some i)
          = ((fun k2 => k2 == k) k2) := by
      intro k2 _
      by_cases h1 : k2 = k
      · rw [show (fun k2 : Chars => k2 == k) k2 = (k2 == k) from rfl, h1, hlk]
        simp
      · have h2 : objLookup (buildTranslationKeyIndex refEntries) k2 ≠ some i := by
          intro hh
          exact h1 (mem_value_inj _ hvals _ _ i (objLookup_mem _ _ _ hh) hmem)
        rw [show (fun k2 : Chars => k2 == k) k2 = (k2 == k) from rfl,
          beq_eq_false_iff_ne.mpr h2, beq_eq_false_iff_ne.mpr h1]
    rw [List.filter_congr hpt2]
    rw [List.count, List.countP_eq_length_filter]
  rw [hcount1, hcount2]
  by_cases hseen : ∃ e ∈ entries, normalizeString e.keyText w = k
  · obtain ⟨e, he, hek⟩ := hseen
    have hmemmap : k ∈ entries.map (fun e => normalizeString e.keyText w) :=
      hek ▸ List.mem_map_of_mem _ he
    have h1 : (entries.map (fun e => normalizeString e.keyText w)).count k = 1 :=
      count_eq_one_of_nodup_mem _ hent k hmemmap
    have h2 : (missingTranslationKeys (buildTranslationKeyIndex refEntries) w entries).count k
        = 0 := by
      rw [List.count_eq_zero]
      intro hmm
      rw [missingTranslationKeys] at hmm
      have hflt := (List.mem_filter.mp hmm).2
      have hany : entries.any (fun e => normalizeString e.keyText w == k) = true :=
        List.any_eq_true.mpr ⟨e, he, by rw [hek]; simp⟩
      rw [hany] at hflt
      cases hflt
    rw [h1, h2]
  · have h1 : (entries.map (fun e => normalizeString e.keyText w)).count k = 0 := by
      rw [List.count_eq_zero]
      intro hmm
      obtain ⟨e, he, hek⟩ := List.mem_map.mp hmm
      exact hseen ⟨e, he, hek⟩
    have h2 : (missingTranslationKeys (buildTranslationKeyIndex refEntries) w entries).count k
        = 1 := by
      have hany : entries.any (fun e => normalizeString e.keyText w == k) = false := by
        rw [Bool.eq_false_iff]
        intro hh
        obtain ⟨e, he, hek⟩ := List.any_eq_true.mp hh
        exact hseen ⟨e, he, eq_of_beq hek⟩
      rw [missingTranslationKeys, count_filter_of_pos _ _ _ (by rw [hany]; rfl)]
      have hkmem : k ∈ (buildTranslationKeyIndex refEntries).map Prod.fst :=
        List.mem_map_of_mem Prod.fst hmem
      exact count_eq_one_of_nodup_mem _ hkeys k hkmem
    rw [h1, h2]

/-- Witness for `claim_c3_exactly_one_per_ordinal` on a two-key reference and
an artifact missing one of the keys. -/
theorem claim_c3_exactly_one_per_ordinal_witness :
    ((c3RefEntries.map (fun kv => normalizeString kv.1 false)).Nodup
        ∧ (c3ArtifactEntries.map (fun e => normalizeString e.keyText false)).Nodup)
      ∧ ((∀ k i, (k, i) ∈ buildTranslationKeyIndex c3RefEntries →
            (rewrittenOrdinals (buildTranslationKeyIndex c3RefEntries) false
                c3ArtifactEntries).count i
              + (synthesizedOrdinals (buildTranslationKeyIndex c3RefEntries)
                  (buildFallbackTranslations c3RefEntries) false c3ArtifactEntries).count i
              = 1)
          ∧ synthesizedInsertText false
              (synthesizedFallbackEntries (buildTranslationKeyIndex c3RefEntries)
                (buildFallbackTranslations c3RefEntries)
                (missingTranslationKeys (buildTranslationKeyIndex c3RefEntries) false
                  c3ArtifactEntries))
              false
            = (if (false = false)
                  ∧ synthesizedFallbackEntries (buildTranslationKeyIndex c3RefEntries)
                      (buildFallbackTranslations c3RefEntries)
                      (missingTranslationKeys (buildTranslationKeyIndex c3RefEntries) false
                        c3ArtifactEntries)
                    ≠ []
                then [','] else [])
              ++ joinWithCommas
                ((synthesizedFallbackEntries (buildTranslationKeyIndex c3RefEntries)
                    (buildFallbackTranslations c3RefEntries)
                    (missingTranslationKeys (buildTranslationKeyIndex c3RefEntries) false
                      c3ArtifactEntries)).map
                  (synthesizedItem false))) :=
  ⟨⟨by decide, by decide⟩,
    claim_c3_exactly_one_per_ordinal c3RefEntries (buildFallbackTranslations c3RefEntries)
      c3ArtifactEntries false false (by decide) (by decide)⟩

/-- C3, counterexample: on an artifact that is missing the reference key `b`,
ordinal `0` receives TWO rewritten entries (both artifact keys normalize to
`a`), so the rewritten dictionary does not contain exactly one entry per
reference ordinal. -/
theorem claim_c3_counterexample :
    ("a".data, 0) ∈ buildTranslationKeyIndex c3CollidingRef
      ∧ "b".data ∈ missingTranslationKeys (buildTranslationKeyIndex c3CollidingRef) false
          c3CollidingEntries
      ∧ (rewrittenOrdinals (buildTranslationKeyIndex c3CollidingRef) false
            c3CollidingEntries).count 0
          + (synthesizedOrdinals (buildTranslationKeyIndex c3CollidingRef)
              (buildFallbackTranslations c3CollidingRef) false c3CollidingEntries).count 0
        = 2 := by
  decide

/-- C9 (amended): a matched entry whose key is in the index and whose matched
value span has length exactly two gets its value replaced by the ENCODED
fallback text when the fallback exists and is non-empty, and by the ENCODED
raw key text both when no fallback exists and when the fallback is the empty
string (the JS `||` treats the empty string as absent);
`claim_c9_counterexample` shows the empty-fallback case diverging from the
claim. -/
theorem claim_c9_empty_value_fallback (indexMap : List (Chars × Nat))
    (fallbackTranslations : List (Chars × Chars)) (w : Bool) (e : TranslationEntry)
    (idx : Nat)
    (hidx : objLookup indexMap (normalizeString e.keyText w) = some idx)
    (hempty : e.valueText.length = 2) :
    (rewriteLanguageEntry indexMap fallbackTranslations w e).valueText
        = encodeAsStringLiteral
            (fallbackOrKey fallbackTranslations (normalizeString e.keyText w)) w
      ∧ (∀ f, objLookup fallbackTranslations (normalizeString e.keyText w) = some f →
          f ≠ [] →
          (rewriteLanguageEntry indexMap fallbackTranslations w e).valueText
            = encodeAsStringLiteral f w)
      ∧ (objLookup fallbackTranslations (normalizeString e.keyText w) = none →
          (rewriteLanguageEntry indexMap fallbackTranslations w e).valueText
            = encodeAsStringLiteral (normalizeString e.keyText w) w)
      ∧ (objLookup fallbackTranslations (normalizeString e.keyText w) = some [] →
          (rewriteLanguageEntry indexMap fallbackTranslations w e).valueText
            = encodeAsStringLiteral (normalizeString e.keyText w) w) := by
  have hval : (rewriteLanguageEntry indexMap fallbackTranslations w e).valueText
      = encodeAsStringLiteral
          (fallbackOrKey fallbackTranslations (normalizeString e.keyText w)) w := by
    rw [rewriteLanguageEntry]
    simp only [hidx, hempty, if_true]
  refine ⟨hval, ?_, ?_, ?_⟩
  · intro f hf hfne
    rw [hval, fallbackOrKey, hf]
    cases f with
    | nil => exact absurd rfl hfne
    | cons c t => rfl
  · intro hf
    rw [hval, fallbackOrKey, hf]
  · intro hf
    rw [hval, fallbackOrKey, hf]
    rfl

/-- Witness for `claim_c9_empty_value_fallback` with a present, non-empty
fallback. -/
theorem claim_c9_empty_value_fallback_witness :
    (objLookup [("a".data, 0)] (normalizeString "a".data false) = some 0
        ∧ (("''".data : Chars)).length = 2)
      ∧ (rewriteLanguageEntry [("a".data, 0)] [("a".data, "A".data)] false
          ⟨"a".data, (':' : Char) :: [], "''".data⟩).valueText
        = encodeAsStringLiteral
            (fallbackOrKey [("a".data, "A".data)] (normalizeString "a".data false)) false :=
  ⟨⟨by decide, by decide⟩,
    (claim_c9_empty_value_fallback [("a".data, 0)] [("a".data, "A".data)] false
      ⟨"a".data, (':' : Char) :: [], "''".data⟩ 0 (by decide) (by decide)).1⟩

/-- C9, counterexample: the fallback for key `a` exists but is the empty
string; the code writes the encoded raw key `'a'` over the empty value span,
not the encoded (existing) fallback text `''` the claim prescribes. -/
theorem claim_c9_counterexample :
    objLookup [("a".data, ([] : Chars))] "a".data = some []
      ∧ (rewriteLanguageEntry [("a".data, 0)] [("a".data, [])] false
          ⟨"a".data, (':' : Char) :: [], "''".data⟩).valueText
        = encodeAsStringLiteral "a".data false
      ∧ encodeAsStringLiteral "a".data false ≠ encodeAsStringLiteral [] false := by
  decide

theorem parseLanguageChunk_filename (c : LanguageChunkInput) (p : ParsedLanguageChunkInfo)
    (h : parseLanguageChunk c = Except.ok p) : p.filename = c.filename := by
  rw [parseLanguageChunk] at h
  split at h
  · cases h
  · split at h
    · cases h
    · split at h
      · cases h
      · cases h
        rfl

theorem parseAllLanguageChunks_filenames (l : List LanguageChunkInput)
    (parsed : List ParsedLanguageChunkInfo)
    (h : parseAllLanguageChunks l = Except.ok parsed) :
    ∀ p ∈ parsed, ∃ c ∈ l, p.filename = c.filename := by
  induction l generalizing parsed with
  | nil =>
    cases h
    intro p hp
    cases hp
  | cons c rest ih =>
    rw [parseAllLanguageChunks] at h
    cases h1 : parseLanguageChunk c with
    | error e =>
      rw [h1] at h
      cases h
    | ok p0 =>
      rw [h1] at h
      cases h2 : parseAllLanguageChunks rest with
      | error e =>
        rw [h2] at h
        cases h
      | ok ps =>
        rw [h2] at h
        cases h
        intro p hp
        rcases List.mem_cons.mp hp with rfl | hp2
        · exact ⟨c, List.mem_cons_self _ _, parseLanguageChunk_filename c p h1⟩
        · obtain ⟨c2, hc2, hfn⟩ := ih ps h2 p hp2
          exact ⟨c2, List.mem_cons_of_mem _ hc2, hfn⟩

/-- C8 (confirmed): with zero language chunks the pass returns immediately
and modifies nothing; with language chunks present but none matching the
reference-language filename test, the pass fails with
`English reference language file not found.` before any chunk is updated. -/
theorem claim_c8_noop_and_missing_reference (otherChunkInfos : List OtherChunkInput) :
    processChunks [] otherChunkInfos = Except.ok ⟨[], [], [], []⟩
      ∧ ∀ (languageChunkInfos : List LanguageChunkInput)
          (parsed : List ParsedLanguageChunkInfo),
          languageChunkInfos ≠ [] →
          parseAllLanguageChunks languageChunkInfos = Except.ok parsed →
          (∀ c ∈ languageChunkInfos, testReferenceLanguageFilename c.filename = false) →
          processChunks languageChunkInfos otherChunkInfos
            = Except.error "English reference language file not found." := by
  constructor
  · rfl
  · intro l parsed hne hparse htest
    cases l with
    | nil => exact absurd rfl hne
    | cons c rest =>
      rw [processChunks]
      rw [if_neg (by rw [List.isEmpty_cons]; intro hh; cases hh)]
      rw [hparse]
      have hfnone : parsed.find? (fun p => testReferenceLanguageFilename p.filename)
          = none := by
        rw [List.find?_eq_none]
        intro p hp
        obtain ⟨c2, hc2, hfn⟩ := parseAllLanguageChunks_filenames _ _ hparse p hp
        rw [Bool.not_eq_true, hfn]
        exact htest c2 hc2
      simp only [optimizeChunksE, hfnone]

/-- Witness for `claim_c8_noop_and_missing_reference`: the empty pass is a
no-op, and a single non-reference language chunk aborts with the missing
reference error. -/
theorem claim_c8_noop_and_missing_reference_witness :
    processChunks [] [] = Except.ok ⟨[], [], [], []⟩
      ∧ processChunks [c8GermanChunk] []
        = Except.error "English reference language file not found." :=
  ⟨(claim_c8_noop_and_missing_reference []).1,
    (claim_c8_noop_and_missing_reference []).2 [c8GermanChunk] [c8GermanParsed]
      (by decide) (by rfl) (by decide)⟩

/-- C10 (confirmed): whenever the translation-object pattern matches a
language chunk's code at character offset zero, `parseLanguageChunk` fails
with `Failed to parse language file.` regardless of everything else, because
`!translationsCodePosition` treats the zero match index as invalid. -/
theorem claim_c10_zero_position_failure (c : LanguageChunkInput)
    (entries : List TranslationEntry) (t : Chars)
    (hmatch : findTranslationObject c.isEvalWrapped c.chunkCode = some (0, entries, t)) :
    parseLanguageChunk c = Except.error "Failed to parse language file." := by
  rw [parseLanguageChunk, hmatch]
  cases findTranslationObject false c.moduleCode with
  | none => rfl
  | some r =>
    obtain ⟨p2, es2, tx2⟩ := r
    rfl

/-- Witness for `claim_c10_zero_position_failure`: the pattern matches the
whole chunk code at offset zero and parsing fails. -/
theorem claim_c10_zero_position_failure_witness :
    findTranslationObject false c10ZeroChunk.chunkCode
        = some (0, [⟨"a".data, (':' : Char) :: [], "'x'".data⟩],
            '\x7b' :: "a:'x'".data ++ ['\x7d'])
      ∧ parseLanguageChunk c10ZeroChunk = Except.error "Failed to parse language file." :=
  ⟨by decide,
    claim_c10_zero_position_failure c10ZeroChunk
      [⟨"a".data, (':' : Char) :: [], "'x'".data⟩]
      ('\x7b' :: "a:'x'".data ++ ['\x7d']) (by decide)⟩

/-- Witness for `claim_c6_reference_selection`: among a German and an English
language artifact, the English one is selected. -/
theorem claim_c6_reference_selection_witness :
    findReferenceFilename ["de-po.js".data, "en-po.js".data] = some "en-po.js".data :=
  (claim_c6_reference_selection ["de-po.js".data, "en-po.js".data] "en-po.js".data).mpr
    ⟨by decide, ["de-po.js".data], [], rfl, by decide⟩

/-- Witness for `claim_c7_classifier`: a matching filename lands in the
language-artifact set. -/
theorem claim_c7_classifier_witness :
    "a-po.js".data ∈ (categorizeAssets ["a-po.js".data]).1 :=
  (claim_c7_classifier ["a-po.js".data] "a-po.js".data).1.mpr
    ⟨by decide, by decide, by decide, by decide⟩

end I18n
